import Mathlib

/-
Shallow embedding of the tic-tac-toe program in `src/main.rs`.

Modelling conventions:
- The Rust `HashMap<Coordinates, Tile>` board is embedded as an association
  list `List (Coordinates × Tile)`; `HashMap::get` becomes a first-match
  lookup (the list built by the program always has pairwise-distinct keys).
- Fallible Rust functions returning `anyhow::Result` become `Except` / `Option`
  values; `unwrap()` calls (which panic on failure) are embedded as an
  `Except Unit` error so that totality of the unwrapped lookups is a provable
  statement rather than an assumption.
- `usize` values are embedded as `Nat`; the one place where the 64-bit bound
  of the reference platform matters (`usize::from_str` during coordinate
  parsing) checks the parsed value against `2 ^ 64 - 1` explicitly.
- The regex character classes used by `Coordinates::from_user_input` follow
  the regex crate's default Unicode mode: `\s` is the Unicode White_Space
  property (also the class `str::trim` strips), while `[[:alpha:]]` and
  `[[:punct:]]` are ASCII classes by definition. `\d` is restricted to the
  ASCII digits because `usize::from_str` rejects any other digit, which
  leaves the set of successfully parsed inputs unchanged.
-/

namespace TicTacToe

/-- Player struct from the source: a number (`u8`) and a display mark. -/
structure Player where
  number : Nat
  mark : Char
deriving DecidableEq, Repr

/-- Zero-indexed grid position (source struct `Indices`). -/
structure Indices where
  column : Nat
  row : Nat
deriving DecidableEq, Repr

/-- User-facing coordinates: a column letter and a one-indexed row. -/
structure Coordinates where
  column : Char
  row : Nat
deriving DecidableEq, Repr

/-- The fixed column-letter table (`Coordinates::COLUMN_LETTERS`). -/
def COLUMN_LETTERS : List Char := ['A', 'B', 'C', 'D', 'E', 'F', 'G', 'H']

/-- `Coordinates::from_indices`: fails when the zero-indexed column number has
no matching letter in the table. -/
def Coordinates.from_indices (indices : Indices) : Option Coordinates :=
  match COLUMN_LETTERS[indices.column]? with
  | some column => some { column := column, row := indices.row + 1 }
  | none => none

/-- Rendering of coordinates as e.g. `A1` (the `Display` impl). -/
def Coordinates.display (c : Coordinates) : String :=
  String.mk [c.column] ++ toString c.row

/-- Character class of the regex `\s`. The regex crate compiles the pattern
in its default Unicode mode, where `\s` denotes the Unicode White_Space
property: U+0009–U+000D, U+0020, U+0085, U+00A0, U+1680, U+2000–U+200A,
U+2028, U+2029, U+202F, U+205F, U+3000. `char::is_whitespace`, which
`str::trim` uses, is the same property. -/
def is_regex_space (c : Char) : Bool :=
  decide ((9 ≤ c.toNat ∧ c.toNat ≤ 13) ∨ c.toNat = 32 ∨ c.toNat = 133 ∨
    c.toNat = 160 ∨ c.toNat = 5760 ∨ (8192 ≤ c.toNat ∧ c.toNat ≤ 8202) ∨
    c.toNat = 8232 ∨ c.toNat = 8233 ∨ c.toNat = 8239 ∨ c.toNat = 8287 ∨
    c.toNat = 12288)

/-- Character class `[[:punct:]]` (ASCII punctuation). -/
def is_ascii_punct (c : Char) : Bool :=
  decide ((33 ≤ c.toNat ∧ c.toNat ≤ 47) ∨ (58 ≤ c.toNat ∧ c.toNat ≤ 64) ∨
    (91 ≤ c.toNat ∧ c.toNat ≤ 96) ∨ (123 ≤ c.toNat ∧ c.toNat ≤ 126))

/-- The bracket class `[\s|[[:punct:]]]` of the parsing regex ( `|` is itself
punctuation, so the class is exactly whitespace-or-punctuation). -/
def is_space_or_punct (c : Char) : Bool :=
  is_regex_space c || is_ascii_punct c

/-- Character class `[[:alpha:]]` (ASCII letters). -/
def is_ascii_alpha (c : Char) : Bool :=
  decide ((65 ≤ c.toNat ∧ c.toNat ≤ 90) ∨ (97 ≤ c.toNat ∧ c.toNat ≤ 122))

/-- Character class `\d` restricted to the digits `usize::from_str` accepts.
In Unicode mode `\d` also matches non-ASCII decimal digits, but a digit group
containing one is always rejected by `usize::from_str` afterwards, so
restricting the class to ASCII digits does not change which inputs parse
successfully. -/
def is_ascii_digit (c : Char) : Bool :=
  decide (48 ≤ c.toNat ∧ c.toNat ≤ 57)

/-- Decimal value of a digit string, as computed by `usize::from_str` on the
captured digit group. -/
def nat_of_digits (ds : List Char) : Nat :=
  ds.foldl (fun acc c => acc * 10 + (c.toNat - 48)) 0

/-- Largest `usize` value on the 64-bit reference platform. -/
def USIZE_MAX : Nat := 2 ^ 64 - 1

/-- `str::trim` of the input (Unicode White_Space stripped from both ends;
`char::is_whitespace` is the same property as the regex `\s` class above),
used for the parse-error message. -/
def rust_trim (s : String) : String :=
  String.mk
    (((s.toList.dropWhile is_regex_space).reverse.dropWhile is_regex_space).reverse)

/-- Errors of `Coordinates::from_user_input`: either the regex did not match
(the error message carries the trimmed input) or `usize::from_str` failed on
the digit group (overflow). -/
inductive ParseError where
  | NoMatch (trimmed_input : String)
  | IntOverflow
deriving DecidableEq, Repr

/-- The match performed by the regex
`^[\s|[[:punct:]]]*([[:alpha:]])[\s|[[:punct:]]]*(\d+)[\s|[[:punct:]]]*$`:
returns the captured letter and digit group, or `none` when the input does not
match. The character classes involved are pairwise disjoint, so the regex
match is equivalent to this greedy left-to-right scan. -/
def extract_coord_parts (input : String) : Option (Char × List Char) :=
  match input.toList.dropWhile is_space_or_punct with
  | [] => none
  | c :: rest =>
    if is_ascii_alpha c then
      let after := rest.dropWhile is_space_or_punct
      let digits := after.takeWhile is_ascii_digit
      let tail := after.dropWhile is_ascii_digit
      if digits.isEmpty then none
      else if (tail.dropWhile is_space_or_punct).isEmpty then some (c, digits)
      else none
    else none

/-- `Coordinates::from_user_input`: regex capture, then `char::from_str` on the
letter (always succeeds on a one-letter capture), uppercasing, and
`usize::from_str` on the digit group (fails above `USIZE_MAX`). -/
def Coordinates.from_user_input (input : String) : Except ParseError Coordinates :=
  match extract_coord_parts input with
  | none => Except.error (ParseError.NoMatch (rust_trim input))
  | some (letter, digits) =>
    if nat_of_digits digits ≤ USIZE_MAX then
      Except.ok { column := letter.toUpper, row := nat_of_digits digits }
    else
      Except.error ParseError.IntOverflow

/-- Tile occupation state from the source. -/
inductive TileOccupationState where
  | Empty
  | Occupied (player : Player)
deriving DecidableEq, Repr

/-- Tile display state from the source (presentation only). -/
inductive TileDisplayState where
  | Error
  | NewlyCreated
  | Normal
  | Victory
deriving DecidableEq, Repr

/-- A board tile: occupation plus display state. -/
structure Tile where
  occupation_state : TileOccupationState
  display_state : TileDisplayState
deriving DecidableEq, Repr

/-- The board: the `HashMap<Coordinates, Tile>` embedded as an entry list. -/
structure Board where
  tiles : List (Coordinates × Tile)
deriving DecidableEq, Repr

/-- Notification kinds from the source. -/
inductive NotificationType where
  | Success
  | Info
  | Error
deriving DecidableEq, Repr

/-- A pending user-facing notification. -/
structure Notification where
  message : String
  notification_type : NotificationType
deriving DecidableEq, Repr

/-- Game outcome from the source. -/
inductive GameOutcome where
  | InProgress
  | Draw
  | Victory (player : Player)
deriving DecidableEq, Repr

/-- The game state (source struct `Game`). -/
structure Game where
  players : List Player
  board : Board
  notification : Option Notification
  grid_dimensions : Nat
  turn_number : Nat
  outcome : GameOutcome
deriving DecidableEq, Repr

/-- The two error cases of `Game::update_board` (`anyhow` errors in the
source, distinguished here by their message shape): the coordinates are not on
the board, or the target tile is already occupied by the named player. -/
inductive MoveError where
  | OutOfBounds (coords : Coordinates)
  | TileTaken (coords : Coordinates) (player : Player)
deriving DecidableEq, Repr

/-- The message text of a move error (as produced by `context`/`anyhow!`). -/
def move_error_message : MoveError → String
  | MoveError.OutOfBounds coords =>
      "Could not find coordinates " ++ coords.display ++ " on game board."
  | MoveError.TileTaken coords player =>
      "Tile " ++ coords.display ++ " is already occupied by Player " ++
        toString player.number ++ "."

/-- First-match lookup in the entry list (`HashMap::get`). -/
def Board.find_entry (coords : Coordinates) : List (Coordinates × Tile) → Option Tile
  | [] => none
  | entry :: rest =>
    if entry.1 = coords then some entry.2 else Board.find_entry coords rest

/-- `self.board.tiles.get(&coords)`. -/
def Board.get (b : Board) (coords : Coordinates) : Option Tile :=
  Board.find_entry coords b.tiles

/-- The key set of the board. -/
def Board.keys (b : Board) : List Coordinates :=
  b.tiles.map Prod.fst

/-- The all-tiles-occupied check of `Game::update_outcome`. -/
def Board.all_occupied (b : Board) : Bool :=
  b.tiles.all (fun entry =>
    match entry.2.occupation_state with
    | TileOccupationState.Occupied _ => true
    | TileOccupationState.Empty => false)

/-- The `get_mut` + assignment in `update_outcome`/`handle_error`: set the
display state of the tile at the given coordinates (all other entries are
untouched; absent coordinates leave the board unchanged). -/
def Board.set_display (b : Board) (coords : Coordinates) (d : TileDisplayState) : Board :=
  Board.mk (b.tiles.map (fun entry =>
    (entry.1,
      if entry.1 = coords then Tile.mk entry.2.occupation_state d else entry.2)))

/-- `Game::MIN_NUM_ROWS_OR_COLUMNS`. -/
def Game.MIN_NUM_ROWS_OR_COLUMNS : Nat := 3

/-- `Game::MAX_NUM_ROWS_OR_COLUMNS`. -/
def Game.MAX_NUM_ROWS_OR_COLUMNS : Nat := 8

/-- `Game::update_board`: validate the coordinates exist and the tile is
empty, then rebuild the board — the moved tile becomes occupied with display
state `NewlyCreated`, every other tile keeps its occupation and has its
display state reset to `Normal`. -/
def Game.update_board (g : Game) (coords_for_move : Coordinates)
    (player_for_move : Player) : Except MoveError Game :=
  match g.board.get coords_for_move with
  | none => Except.error (MoveError.OutOfBounds coords_for_move)
  | some tile_for_move =>
    match tile_for_move.occupation_state with
    | TileOccupationState.Occupied player =>
        Except.error (MoveError.TileTaken coords_for_move player)
    | TileOccupationState.Empty =>
        let new_tiles := g.board.tiles.map (fun entry =>
          (entry.1,
            if entry.1 = coords_for_move then
              Tile.mk (TileOccupationState.Occupied player_for_move)
                TileDisplayState.NewlyCreated
            else
              Tile.mk entry.2.occupation_state TileDisplayState.Normal))
        Except.ok { g with board := Board.mk new_tiles }

/-- One row of candidate winning indices (row fixed, columns ascending). -/
def row_line (n : Nat) (row_index : Nat) : List Indices :=
  (List.range n).map (fun column_index => Indices.mk column_index row_index)

/-- One column of candidate winning indices (column fixed, rows ascending). -/
def column_line (n : Nat) (column_index : Nat) : List Indices :=
  (List.range n).map (fun row_index => Indices.mk column_index row_index)

/-- The upper-left-to-lower-right diagonal. -/
def upper_left_diagonal (n : Nat) : List Indices :=
  (List.range n).map (fun index => Indices.mk index index)

/-- The lower-left-to-upper-right diagonal (`row = max_index - index`). -/
def lower_left_diagonal (n : Nat) : List Indices :=
  (List.range n).map (fun index => Indices.mk index (n - 1 - index))

/-- The candidate winning lines built by `Game::update_outcome`, in the order
the source pushes them: all rows (ascending), all columns (ascending), then
the two diagonals. -/
def possible_winning_indices_sets (n : Nat) : List (List Indices) :=
  (List.range n).map (row_line n) ++ (List.range n).map (column_line n) ++
    [upper_left_diagonal n, lower_left_diagonal n]

/-- The two chained `unwrap`ed lookups in `single_player_occupying_indices`:
`Coordinates::from_indices(indices).unwrap()` followed by
`self.board.tiles.get(&coords).unwrap()`. An `Except.error ()` result embeds
the panic of either `unwrap`. -/
def Game.lookup_indices_tile (g : Game) (idx : Indices) : Except Unit Tile :=
  match Coordinates.from_indices idx with
  | none => Except.error ()
  | some coords =>
    match g.board.get coords with
    | none => Except.error ()
    | some tile => Except.ok tile

/-- The eager `map`/`collect` over a line's indices in
`single_player_occupying_indices` (panics at the first failing lookup). -/
def Game.lookup_line_tiles (g : Game) : List Indices → Except Unit (List Tile)
  | [] => Except.ok []
  | idx :: rest =>
    match g.lookup_indices_tile idx with
    | Except.error e => Except.error e
    | Except.ok tile =>
      match Game.lookup_line_tiles g rest with
      | Except.error e => Except.error e
      | Except.ok tiles => Except.ok (tile :: tiles)

/-- The running-occupier loop of `single_player_occupying_indices`. -/
def single_player_loop (maybe_running_occupier : Option Player) :
    List Tile → Option Player
  | [] => maybe_running_occupier
  | tile :: rest =>
    match maybe_running_occupier, tile.occupation_state with
    | _, TileOccupationState.Empty => none
    | none, TileOccupationState.Occupied tile_occupier =>
        single_player_loop (some tile_occupier) rest
    | some running_occupier, TileOccupationState.Occupied tile_occupier =>
        if running_occupier ≠ tile_occupier then none
        else single_player_loop (some running_occupier) rest

/-- `Game::single_player_occupying_indices`: if every tile at the given
indices is occupied by one and the same player, return that player. -/
def Game.single_player_occupying_indices (g : Game) (indices : List Indices) :
    Except Unit (Option Player) :=
  match g.lookup_line_tiles indices with
  | Except.error e => Except.error e
  | Except.ok tiles => Except.ok (single_player_loop none tiles)

/-- The first winning line found by the `for indices_set in ...` loop of
`update_outcome`, together with its owner. -/
def Game.find_first_winner (g : Game) :
    List (List Indices) → Except Unit (Option (Player × List Indices))
  | [] => Except.ok none
  | indices_set :: rest =>
    match g.single_player_occupying_indices indices_set with
    | Except.error e => Except.error e
    | Except.ok (some player) => Except.ok (some (player, indices_set))
    | Except.ok none => Game.find_first_winner g rest

/-- Rendering of a player as e.g. `Player 1` (the `Display` impl). -/
def Player.display (p : Player) : String :=
  "Player " ++ toString p.number

/-- The `unwrap`ed `from_indices` mapping over the winning line in
`update_outcome`. -/
def line_coordinates : List Indices → Except Unit (List Coordinates)
  | [] => Except.ok []
  | idx :: rest =>
    match Coordinates.from_indices idx with
    | none => Except.error ()
    | some coords =>
      match line_coordinates rest with
      | Except.error e => Except.error e
      | Except.ok cs => Except.ok (coords :: cs)

/-- The `for coordinates in coordinates_set` loop of `update_outcome`: each
winning tile is looked up with `get_mut(...).unwrap()` and its display state
set to `Victory`. -/
def Game.mark_victory_tiles (board : Board) :
    List Coordinates → Except Unit Board
  | [] => Except.ok board
  | coords :: rest =>
    match board.get coords with
    | none => Except.error ()
    | some _ =>
      Game.mark_victory_tiles (board.set_display coords TileDisplayState.Victory) rest

/-- `Game::advance_turn`. -/
def Game.advance_turn (g : Game) : Game :=
  { g with turn_number := g.turn_number + 1 }

/-- `Game::update_outcome`: find the first fully-owned candidate line; on a
win set the outcome, the success notification and the winning tiles' display
states; otherwise declare a draw when every tile is occupied; otherwise
advance the turn. -/
def Game.update_outcome (g : Game) : Except Unit Game :=
  match g.find_first_winner (possible_winning_indices_sets g.grid_dimensions) with
  | Except.error e => Except.error e
  | Except.ok (some (player, indices_set)) =>
    match line_coordinates indices_set with
    | Except.error e => Except.error e
    | Except.ok coordinates_set =>
      match Game.mark_victory_tiles g.board coordinates_set with
      | Except.error e => Except.error e
      | Except.ok new_board =>
        Except.ok { g with
          outcome := GameOutcome.Victory player,
          notification := some (Notification.mk (player.display ++ " wins!")
            NotificationType.Success),
          board := new_board }
  | Except.ok none =>
    if g.board.all_occupied then
      Except.ok { g with
        outcome := GameOutcome.Draw,
        notification := some (Notification.mk "The game ends in a draw!"
          NotificationType.Info) }
    else
      Except.ok g.advance_turn

/-- `Game::get_current_turn_player`: indexes `players` (a panic on an
out-of-range index is embedded as `none`). -/
def Game.get_current_turn_player (g : Game) : Option Player :=
  g.players[(g.turn_number - 1) % 2]?

/-- `handle_error` from the driver loop: records an error notification and,
when the failing coordinates exist on the board, sets that tile's display
state to `Error` (the source mutates the notification first and then the
tile; the fused record update here is the same resulting state). -/
def handle_error (g : Game) (err : MoveError) (maybe_coords : Option Coordinates) : Game :=
  match maybe_coords with
  | none =>
    { g with notification := some (Notification.mk (move_error_message err)
        NotificationType.Error) }
  | some coords =>
    match g.board.get coords with
    | none =>
      { g with notification := some (Notification.mk (move_error_message err)
          NotificationType.Error) }
    | some _ =>
      { g with
        notification := some (Notification.mk (move_error_message err)
          NotificationType.Error),
        board := g.board.set_display coords TileDisplayState.Error }

/-- One attempt of the driver loop `try_execute_turn`, given already-parsed
coordinates: look up the current player, clear the printed notification, and
when the game is in progress apply the move (a failed move is handled by
`handle_error` and reported; a successful one is followed by
`update_outcome`). In a terminal state nothing but the notification changes. -/
def try_execute_turn (g : Game) (coords : Coordinates) :
    Except Unit (Game × Option MoveError) :=
  match g.get_current_turn_player with
  | none => Except.error ()
  | some current_player =>
    if g.outcome = GameOutcome.InProgress then
      match ({ g with notification := none } : Game).update_board coords
          current_player with
      | Except.error err =>
        Except.ok (handle_error { g with notification := none } err (some coords),
          some err)
      | Except.ok g2 =>
        match g2.update_outcome with
        | Except.error e => Except.error e
        | Except.ok g3 => Except.ok (g3, none)
    else
      Except.ok ({ g with notification := none }, none)

/-- The grid positions enumerated by the board-building loops of `Game::new`
(rows outer, columns inner). -/
def all_grid_indices (n : Nat) : List Indices :=
  (List.range n).flatMap (fun row_index =>
    (List.range n).map (fun column_index => Indices.mk column_index row_index))

/-- The tile entries inserted by `Game::new` (each insertion `unwrap`s
`from_indices`; the panic is embedded as `none`). -/
def init_tiles_entries : List Indices → Option (List (Coordinates × Tile))
  | [] => some []
  | idx :: rest =>
    match Coordinates.from_indices idx with
    | none => none
    | some coords =>
      match init_tiles_entries rest with
      | none => none
      | some entries =>
        some ((coords, Tile.mk TileOccupationState.Empty TileDisplayState.Normal) :: entries)

/-- `Game::new`: reject dimensions outside `[MIN, MAX]`, then build the fully
empty board, the two fixed players, turn 1 and outcome `InProgress`. -/
def Game.new (num_rows_or_columns : Nat) : Option Game :=
  if num_rows_or_columns < Game.MIN_NUM_ROWS_OR_COLUMNS ∨
      num_rows_or_columns > Game.MAX_NUM_ROWS_OR_COLUMNS then
    none
  else
    match init_tiles_entries (all_grid_indices num_rows_or_columns) with
    | none => none
    | some tiles =>
      some {
        players := [Player.mk 1 'X', Player.mk 2 'O'],
        board := Board.mk tiles,
        notification := none,
        grid_dimensions := num_rows_or_columns,
        turn_number := 1,
        outcome := GameOutcome.InProgress }


/-! ### Basic facts about board lookups -/

instance {ε α : Type} [DecidableEq ε] [DecidableEq α] : DecidableEq (Except ε α) := fun a b =>
  match a, b with
  | Except.error e, Except.error f => decidable_of_iff (e = f) (by simp)
  | Except.error _, Except.ok _ => Decidable.isFalse (by simp)
  | Except.ok _, Except.error _ => Decidable.isFalse (by simp)
  | Except.ok a, Except.ok b => decidable_of_iff (a = b) (by simp)

theorem Board.find_entry_map (tiles : List (Coordinates × Tile))
    (F : Coordinates → Tile → Tile) (c : Coordinates) :
    Board.find_entry c (tiles.map (fun entry => (entry.1, F entry.1 entry.2))) =
      (Board.find_entry c tiles).map (F c) := by
  induction tiles with
  | nil => rfl
  | cons entry rest ih =>
    simp only [List.map_cons, Board.find_entry]
    by_cases h : entry.1 = c
    · subst h
      simp
    · simp [h, ih]

theorem Board.get_set_display (b : Board) (coords c : Coordinates) (d : TileDisplayState) :
    (b.set_display coords d).get c =
      (b.get c).map (fun t =>
        if c = coords then Tile.mk t.occupation_state d else t) := by
  unfold Board.set_display Board.get
  exact Board.find_entry_map b.tiles
    (fun k t => if k = coords then Tile.mk t.occupation_state d else t) c

theorem Board.get_set_display_ne (b : Board) (coords c : Coordinates)
    (d : TileDisplayState) (h : c ≠ coords) :
    (b.set_display coords d).get c = b.get c := by
  rw [Board.get_set_display]
  cases b.get c <;> simp [h]

theorem Board.keys_map_form (tiles : List (Coordinates × Tile))
    (F : Coordinates → Tile → Tile) :
    (Board.mk (tiles.map (fun entry => (entry.1, F entry.1 entry.2)))).keys =
      (Board.mk tiles).keys := by
  unfold Board.keys
  simp [List.map_map]

theorem Board.keys_set_display (b : Board) (coords : Coordinates) (d : TileDisplayState) :
    (b.set_display coords d).keys = b.keys := by
  unfold Board.set_display
  exact Board.keys_map_form b.tiles
    (fun k t => if k = coords then Tile.mk t.occupation_state d else t)

theorem Board.get_isSome_iff_mem_keys (b : Board) (c : Coordinates) :
    (b.get c).isSome = true ↔ c ∈ b.keys := by
  unfold Board.get Board.keys
  induction b.tiles with
  | nil => simp [Board.find_entry]
  | cons e rest ih =>
    simp only [Board.find_entry, List.map_cons, List.mem_cons]
    by_cases h : e.1 = c
    · simp [h]
    · have h' : ¬ c = e.1 := fun hc => h hc.symm
      simp [h, h', ih]

theorem Board.get_of_mem_nodup (b : Board) (hnd : b.keys.Nodup)
    (entry : Coordinates × Tile) (hm : entry ∈ b.tiles) :
    b.get entry.1 = some entry.2 := by
  unfold Board.get
  unfold Board.keys at hnd
  obtain ⟨tiles⟩ := b
  induction tiles with
  | nil => cases hm
  | cons e rest ih =>
    simp only [List.map_cons, List.nodup_cons] at hnd
    rcases List.mem_cons.mp hm with h | h
    · subst h
      simp [Board.find_entry]
    · have hne : ¬ e.1 = entry.1 := by
        intro hc
        exact hnd.1 (hc ▸ List.mem_map_of_mem Prod.fst h)
      simp only [Board.find_entry, hne, if_false]
      exact ih hnd.2 h

theorem Board.get_mem (b : Board) (c : Coordinates) (t : Tile)
    (h : b.get c = some t) : (c, t) ∈ b.tiles := by
  unfold Board.get at h
  obtain ⟨tiles⟩ := b
  induction tiles with
  | nil => cases h
  | cons e rest ih =>
    simp only [Board.find_entry] at h
    by_cases he : e.1 = c
    · rw [if_pos he] at h
      injection h with h2
      have hec : e = (c, t) := Prod.ext_iff.mpr ⟨he, h2⟩
      rw [← hec]
      exact List.mem_cons_self e rest
    · rw [if_neg he] at h
      exact List.mem_cons.mpr (Or.inr (ih h))

theorem Board.all_occupied_iff (b : Board) :
    b.all_occupied = true ↔
      ∀ entry ∈ b.tiles, entry.2.occupation_state ≠ TileOccupationState.Empty := by
  unfold Board.all_occupied
  rw [List.all_eq_true]
  constructor
  · intro h entry hm
    have := h entry hm
    cases hocc : entry.2.occupation_state <;> simp [hocc] at this ⊢
  · intro h entry hm
    have := h entry hm
    cases hocc : entry.2.occupation_state
    · exact absurd hocc this
    · simp [hocc]


/-! ### The running-occupier loop and the line-ownership bridge -/

theorem single_player_loop_some (q p : Player) (ts : List Tile) :
    single_player_loop (some q) ts = some p ↔
      p = q ∧ ∀ t ∈ ts, t.occupation_state = TileOccupationState.Occupied q := by
  induction ts with
  | nil => simp [single_player_loop, eq_comm]
  | cons t rest ih =>
    cases hocc : t.occupation_state with
    | Empty => simp [single_player_loop, hocc, List.forall_mem_cons]
    | Occupied r =>
      by_cases hqr : q = r
      · subst hqr
        simp [single_player_loop, hocc, List.forall_mem_cons, ih]
      · simp [single_player_loop, hocc, List.forall_mem_cons, hqr, Ne.symm hqr]

theorem single_player_loop_none (p : Player) (ts : List Tile) :
    single_player_loop none ts = some p ↔
      ts ≠ [] ∧ ∀ t ∈ ts, t.occupation_state = TileOccupationState.Occupied p := by
  cases ts with
  | nil => simp [single_player_loop]
  | cons t rest =>
    cases hocc : t.occupation_state with
    | Empty => simp [single_player_loop, hocc, List.forall_mem_cons]
    | Occupied r =>
      simp only [single_player_loop, hocc, single_player_loop_some, ne_eq,
        List.forall_mem_cons, reduceCtorEq, not_false_eq_true, true_and]
      constructor
      · rintro ⟨hp, hall⟩
        subst hp
        exact ⟨rfl, hall⟩
      · rintro ⟨hr, hall⟩
        injection hr with hr2
        subst hr2
        exact ⟨rfl, hall⟩

theorem lookup_line_tiles_forall2 (g : Game) :
    ∀ (L : List Indices) (ts : List Tile), g.lookup_line_tiles L = Except.ok ts →
      List.Forall₂ (fun idx t => g.lookup_indices_tile idx = Except.ok t) L ts := by
  intro L
  induction L with
  | nil =>
    intro ts h
    simp only [Game.lookup_line_tiles] at h
    injection h with h2
    rw [← h2]
    exact List.Forall₂.nil
  | cons idx rest ih =>
    intro ts h
    simp only [Game.lookup_line_tiles] at h
    cases hl : g.lookup_indices_tile idx with
    | error e => rw [hl] at h; simp at h
    | ok tile =>
      rw [hl] at h
      cases hr : Game.lookup_line_tiles g rest with
      | error e => rw [hr] at h; simp at h
      | ok tiles =>
        rw [hr] at h
        simp only at h
        injection h with h2
        rw [← h2]
        exact List.Forall₂.cons hl (ih tiles hr)

theorem lookup_line_tiles_total (g : Game) :
    ∀ (L : List Indices), (∀ idx ∈ L, ∃ t, g.lookup_indices_tile idx = Except.ok t) →
      ∃ ts, g.lookup_line_tiles L = Except.ok ts := by
  intro L
  induction L with
  | nil => exact fun _ => ⟨[], rfl⟩
  | cons idx rest ih =>
    intro h
    obtain ⟨t, ht⟩ := h idx (List.mem_cons_self idx rest)
    obtain ⟨ts, hts⟩ := ih (fun i hi => h i (List.mem_cons_of_mem idx hi))
    exact ⟨t :: ts, by simp only [Game.lookup_line_tiles, ht, hts]⟩

theorem forall2_occupation_iff (g : Game) (p : Player) :
    ∀ {L : List Indices} {ts : List Tile},
      List.Forall₂ (fun idx t => g.lookup_indices_tile idx = Except.ok t) L ts →
      ((∀ t ∈ ts, t.occupation_state = TileOccupationState.Occupied p) ↔
        (∀ idx ∈ L, (g.lookup_indices_tile idx).map Tile.occupation_state =
          Except.ok (TileOccupationState.Occupied p))) := by
  intro L ts h
  induction h with
  | nil => simp
  | @cons idx t L' ts' hrel hrest ih =>
    simp only [List.forall_mem_cons]
    rw [ih]
    have hmap : (g.lookup_indices_tile idx).map Tile.occupation_state =
        Except.ok t.occupation_state := by
      rw [hrel]
      rfl
    rw [hmap]
    simp

/-- Semantic form of "every tile of this candidate line is occupied by `p`":
the line is non-empty, and at each of its index pairs the coordinate
translation and the board lookup both succeed and yield a tile occupied by
`p`. -/
def line_owned_by (g : Game) (line : List Indices) (p : Player) : Prop :=
  line ≠ [] ∧ ∀ idx ∈ line,
    (g.lookup_indices_tile idx).map Tile.occupation_state =
      Except.ok (TileOccupationState.Occupied p)

instance (g : Game) (line : List Indices) (p : Player) :
    Decidable (line_owned_by g line p) := by
  unfold line_owned_by
  infer_instance

theorem single_player_eq_some_iff (g : Game) (L : List Indices) (p : Player) :
    g.single_player_occupying_indices L = Except.ok (some p) ↔ line_owned_by g L p := by
  unfold Game.single_player_occupying_indices line_owned_by
  cases hlt : g.lookup_line_tiles L with
  | error e =>
    constructor
    · intro h
      simp at h
    · rintro ⟨hne, hall⟩
      exfalso
      have htot : ∀ idx ∈ L, ∃ t, g.lookup_indices_tile idx = Except.ok t := by
        intro idx hi
        have hm := hall idx hi
        cases hl : g.lookup_indices_tile idx with
        | error e2 => rw [hl] at hm; simp [Except.map] at hm
        | ok t => exact ⟨t, rfl⟩
      obtain ⟨ts, hts⟩ := lookup_line_tiles_total g L htot
      rw [hlt] at hts
      simp at hts
  | ok ts =>
    have hf2 := lookup_line_tiles_forall2 g L ts hlt
    constructor
    · intro h
      injection h with h2
      rw [single_player_loop_none] at h2
      refine ⟨?_, (forall2_occupation_iff g p hf2).mp h2.2⟩
      intro hL
      subst hL
      cases hf2
      exact h2.1 rfl
    · rintro ⟨hne, hall⟩
      have h2 : single_player_loop none ts = some p := by
        rw [single_player_loop_none]
        refine ⟨?_, (forall2_occupation_iff g p hf2).mpr hall⟩
        intro hts
        subst hts
        cases hf2
        exact hne rfl
      show Except.ok (single_player_loop none ts) = Except.ok (some p)
      rw [h2]

/-! ### The first-winning-line scan -/

theorem find_first_winner_skip (g : Game) (pre rest : List (List Indices))
    (hpre : ∀ L ∈ pre, g.single_player_occupying_indices L = Except.ok none) :
    g.find_first_winner (pre ++ rest) = g.find_first_winner rest := by
  induction pre with
  | nil => rfl
  | cons L pre' ih =>
    have hL := hpre L (List.mem_cons_self L pre')
    simp only [List.cons_append, Game.find_first_winner, hL]
    exact ih (fun L' h => hpre L' (List.mem_cons_of_mem L h))

theorem find_first_winner_cons_some (g : Game) (p : Player) (L : List Indices)
    (rest : List (List Indices))
    (h : g.single_player_occupying_indices L = Except.ok (some p)) :
    g.find_first_winner (L :: rest) = Except.ok (some (p, L)) := by
  simp only [Game.find_first_winner, h]

theorem find_first_winner_none (g : Game) :
    ∀ (sets : List (List Indices)), g.find_first_winner sets = Except.ok none →
      ∀ L ∈ sets, g.single_player_occupying_indices L = Except.ok none := by
  intro sets
  induction sets with
  | nil => intro _ L hL; cases hL
  | cons L0 rest ih =>
    intro h L hL
    simp only [Game.find_first_winner] at h
    cases hs : g.single_player_occupying_indices L0 with
    | error e => rw [hs] at h; simp at h
    | ok r =>
      cases r with
      | some pr => rw [hs] at h; simp at h
      | none =>
        rw [hs] at h
        simp only at h
        rcases List.mem_cons.mp hL with h1 | h1
        · subst h1; exact hs
        · exact ih h L h1

theorem find_first_winner_total (g : Game) (sets : List (List Indices))
    (h : ∀ L ∈ sets, ∃ r, g.single_player_occupying_indices L = Except.ok r) :
    ∃ res, g.find_first_winner sets = Except.ok res := by
  induction sets with
  | nil => exact ⟨none, rfl⟩
  | cons L0 rest ih =>
    obtain ⟨r, hr⟩ := h L0 (List.mem_cons_self L0 rest)
    cases r with
    | some pr => exact ⟨some (pr, L0), by simp only [Game.find_first_winner, hr]⟩
    | none =>
      obtain ⟨res, hres⟩ := ih (fun L hL => h L (List.mem_cons_of_mem L0 hL))
      exact ⟨res, by simp only [Game.find_first_winner, hr, hres]⟩


/-! ### Coordinate bounds and the board key-set invariant -/

theorem COLUMN_LETTERS_length : COLUMN_LETTERS.length = 8 := rfl

theorem from_indices_eq_some (idx : Indices) (h : idx.column < 8) :
    Coordinates.from_indices idx =
      some { column := COLUMN_LETTERS.get
               ⟨idx.column, by rw [COLUMN_LETTERS_length]; exact h⟩,
             row := idx.row + 1 } := by
  have hlt : idx.column < COLUMN_LETTERS.length := by
    rw [COLUMN_LETTERS_length]
    exact h
  unfold Coordinates.from_indices
  rw [List.getElem?_eq_getElem hlt]
  rfl

theorem from_indices_inv (idx : Indices) (c : Coordinates)
    (h : Coordinates.from_indices idx = some c) :
    COLUMN_LETTERS[idx.column]? = some c.column ∧ c.row = idx.row + 1 := by
  unfold Coordinates.from_indices at h
  cases hg : COLUMN_LETTERS[idx.column]? with
  | none => rw [hg] at h; simp at h
  | some ch =>
    rw [hg] at h
    simp only at h
    injection h with h2
    subst h2
    exact ⟨rfl, rfl⟩

/-- In-bounds coordinates for grid dimension `n`: a one-indexed row in
`[1, n]` and a column letter among the first `n` letters of the table. -/
def in_bounds_coord (n : Nat) (c : Coordinates) : Prop :=
  1 ≤ c.row ∧ c.row ≤ n ∧ c.column ∈ COLUMN_LETTERS.take n

instance (n : Nat) (c : Coordinates) : Decidable (in_bounds_coord n c) := by
  unfold in_bounds_coord
  infer_instance

/-- The full coordinate space for dimension `n`: the coordinates of every
grid position enumerated by the construction loops. -/
def full_coordinate_space (n : Nat) : List Coordinates :=
  (all_grid_indices n).filterMap Coordinates.from_indices

theorem mem_all_grid_indices (n : Nat) (idx : Indices) :
    idx ∈ all_grid_indices n ↔ idx.column < n ∧ idx.row < n := by
  unfold all_grid_indices
  rw [List.mem_flatMap]
  constructor
  · rintro ⟨ri, hri, hm⟩
    rw [List.mem_map] at hm
    obtain ⟨ci, hci, hidx⟩ := hm
    rw [← hidx]
    exact ⟨List.mem_range.mp hci, List.mem_range.mp hri⟩
  · rintro ⟨hc, hr⟩
    refine ⟨idx.row, List.mem_range.mpr hr, ?_⟩
    rw [List.mem_map]
    exact ⟨idx.column, List.mem_range.mpr hc, rfl⟩

theorem mem_full_coordinate_space (n : Nat) (h8 : n ≤ 8) (c : Coordinates) :
    c ∈ full_coordinate_space n ↔ in_bounds_coord n c := by
  unfold full_coordinate_space in_bounds_coord
  rw [List.mem_filterMap]
  constructor
  · rintro ⟨idx, hidx, hfi⟩
    obtain ⟨hc, hr⟩ := (mem_all_grid_indices n idx).mp hidx
    obtain ⟨hcol, hrow⟩ := from_indices_inv idx c hfi
    refine ⟨by omega, by omega, ?_⟩
    have hlt : idx.column < (COLUMN_LETTERS.take n).length := by
      rw [List.length_take, COLUMN_LETTERS_length]
      omega
    have htake : (COLUMN_LETTERS.take n).get ⟨idx.column, hlt⟩ = c.column := by
      rw [List.get_eq_getElem, List.getElem_take]
      have h8' : idx.column < COLUMN_LETTERS.length := by
        rw [COLUMN_LETTERS_length]
        omega
      rw [List.getElem?_eq_getElem h8'] at hcol
      injection hcol
    rw [← htake]
    exact List.get_mem (COLUMN_LETTERS.take n) idx.column hlt
  · rintro ⟨h1, h2, h3⟩
    rw [List.mem_iff_getElem] at h3
    obtain ⟨i, hi, hgi⟩ := h3
    have hin : i < n ∧ i < 8 := by
      rw [List.length_take, COLUMN_LETTERS_length] at hi
      omega
    refine ⟨Indices.mk i (c.row - 1), ?_, ?_⟩
    · rw [mem_all_grid_indices]
      refine ⟨hin.1, ?_⟩
      show c.row - 1 < n
      omega
    · rw [from_indices_eq_some (Indices.mk i (c.row - 1)) hin.2]
      have hcol : COLUMN_LETTERS.get
          ⟨i, by rw [COLUMN_LETTERS_length]; exact hin.2⟩ = c.column := by
        rw [List.get_eq_getElem, ← hgi, List.getElem_take]
      have hrow : c.row - 1 + 1 = c.row := by omega
      obtain ⟨ccol, crow⟩ := c
      simp only [Option.some.injEq, Coordinates.mk.injEq]
      exact ⟨hcol, hrow⟩

/-- The board key-set invariant: the keys are pairwise distinct and are
exactly the in-bounds coordinates for dimension `n`. -/
def Board.wf (b : Board) (n : Nat) : Prop :=
  b.keys.Nodup ∧ (∀ c ∈ b.keys, in_bounds_coord n c) ∧
    (∀ c ∈ full_coordinate_space n, c ∈ b.keys)

instance (b : Board) (n : Nat) : Decidable (b.wf n) := by
  unfold Board.wf
  infer_instance

theorem wf_of_keys_eq (b b' : Board) (n : Nat) (hkeys : b'.keys = b.keys)
    (hwf : b.wf n) : b'.wf n := by
  unfold Board.wf at hwf ⊢
  rw [hkeys]
  exact hwf

theorem wf_get_isSome (b : Board) (n : Nat) (hwf : b.wf n) (h8 : n ≤ 8)
    (c : Coordinates) (hc : in_bounds_coord n c) : ∃ t, b.get c = some t := by
  have hmem : c ∈ b.keys :=
    hwf.2.2 c ((mem_full_coordinate_space n h8 c).mpr hc)
  have := (Board.get_isSome_iff_mem_keys b c).mpr hmem
  cases hg : b.get c with
  | none => rw [hg] at this; simp at this
  | some t => exact ⟨t, rfl⟩

theorem mem_sets_bounds (n : Nat) (L : List Indices)
    (hL : L ∈ possible_winning_indices_sets n) :
    ∀ idx ∈ L, idx.column < n ∧ idx.row < n := by
  unfold possible_winning_indices_sets at hL
  intro idx hidx
  rcases List.mem_append.mp hL with h | h
  · rcases List.mem_append.mp h with h1 | h1
    · rw [List.mem_map] at h1
      obtain ⟨ri, hri, hLr⟩ := h1
      rw [← hLr] at hidx
      unfold row_line at hidx
      rw [List.mem_map] at hidx
      obtain ⟨ci, hci, hidx2⟩ := hidx
      rw [← hidx2]
      exact ⟨List.mem_range.mp hci, List.mem_range.mp hri⟩
    · rw [List.mem_map] at h1
      obtain ⟨ci, hci, hLc⟩ := h1
      rw [← hLc] at hidx
      unfold column_line at hidx
      rw [List.mem_map] at hidx
      obtain ⟨ri, hri, hidx2⟩ := hidx
      rw [← hidx2]
      exact ⟨List.mem_range.mp hci, List.mem_range.mp hri⟩
  · rcases List.mem_cons.mp h with h1 | h1
    · rw [h1] at hidx
      unfold upper_left_diagonal at hidx
      rw [List.mem_map] at hidx
      obtain ⟨i, hi, hidx2⟩ := hidx
      rw [← hidx2]
      exact ⟨List.mem_range.mp hi, List.mem_range.mp hi⟩
    · rcases List.mem_cons.mp h1 with h2 | h2
      · rw [h2] at hidx
        unfold lower_left_diagonal at hidx
        rw [List.mem_map] at hidx
        obtain ⟨i, hi, hidx2⟩ := hidx
        rw [← hidx2]
        have := List.mem_range.mp hi
        exact ⟨this, by simp; omega⟩
      · cases h2

theorem from_indices_in_bounds (n : Nat) (idx : Indices) (h8 : n ≤ 8)
    (hc : idx.column < n) (hr : idx.row < n) :
    ∃ c, Coordinates.from_indices idx = some c ∧ in_bounds_coord n c := by
  have hc8 : idx.column < 8 := by omega
  rw [from_indices_eq_some idx hc8]
  refine ⟨_, rfl, ?_, ?_, ?_⟩
  · simp
  · simp
    omega
  · have hlt : idx.column < (COLUMN_LETTERS.take n).length := by
      rw [List.length_take, COLUMN_LETTERS_length]
      omega
    have htake : (COLUMN_LETTERS.take n).get ⟨idx.column, hlt⟩ =
        COLUMN_LETTERS.get
          ⟨idx.column, by rw [COLUMN_LETTERS_length]; exact hc8⟩ := by
      rw [List.get_eq_getElem, List.get_eq_getElem, List.getElem_take]
    simp only
    rw [← htake]
    exact List.get_mem (COLUMN_LETTERS.take n) idx.column hlt

theorem lookup_total_of_wf (g : Game) (n : Nat)
    (h8 : n ≤ 8) (hwf : g.board.wf n) (idx : Indices)
    (hc : idx.column < n) (hr : idx.row < n) :
    ∃ c t, Coordinates.from_indices idx = some c ∧ g.board.get c = some t ∧
      g.lookup_indices_tile idx = Except.ok t := by
  obtain ⟨c, hfi, hib⟩ := from_indices_in_bounds n idx h8 hc hr
  obtain ⟨t, ht⟩ := wf_get_isSome g.board n hwf h8 c hib
  refine ⟨c, t, hfi, ht, ?_⟩
  unfold Game.lookup_indices_tile
  rw [hfi]
  show (match g.board.get c with
    | none => Except.error ()
    | some tile => Except.ok tile) = Except.ok t
  rw [ht]


/-! ### The victory path of update_outcome -/

theorem lookup_indices_tile_ok (g : Game) (idx : Indices) (t : Tile)
    (h : g.lookup_indices_tile idx = Except.ok t) :
    ∃ c, Coordinates.from_indices idx = some c ∧ g.board.get c = some t := by
  unfold Game.lookup_indices_tile at h
  cases hfi : Coordinates.from_indices idx with
  | none => rw [hfi] at h; simp at h
  | some c =>
    rw [hfi] at h
    simp only at h
    cases hg : g.board.get c with
    | none => rw [hg] at h; simp at h
    | some t2 =>
      rw [hg] at h
      simp only at h
      injection h with h2
      exact ⟨c, rfl, by rw [hg, h2]⟩

theorem forall2_exists_left {R : Indices → Tile → Prop} :
    ∀ {L : List Indices} {ts : List Tile}, List.Forall₂ R L ts →
      ∀ a ∈ L, ∃ b, R a b := by
  intro L ts h
  induction h with
  | nil => intro a ha; cases ha
  | @cons idx t L' ts' hrel hrest ih =>
    intro a ha
    rcases List.mem_cons.mp ha with h1 | h1
    · exact ⟨t, by rw [h1]; exact hrel⟩
    · exact ih a h1

theorem single_ok_lookups (g : Game) (L : List Indices) (r : Option Player)
    (h : g.single_player_occupying_indices L = Except.ok r) :
    ∀ idx ∈ L, ∃ c t, Coordinates.from_indices idx = some c ∧
      g.board.get c = some t := by
  unfold Game.single_player_occupying_indices at h
  cases hlt : g.lookup_line_tiles L with
  | error e => rw [hlt] at h; simp at h
  | ok ts =>
    intro idx hidx
    obtain ⟨t, ht⟩ :=
      forall2_exists_left (lookup_line_tiles_forall2 g L ts hlt) idx hidx
    obtain ⟨c, hc, hg⟩ := lookup_indices_tile_ok g idx t ht
    exact ⟨c, t, hc, hg⟩

theorem line_coordinates_total :
    ∀ (L : List Indices), (∀ idx ∈ L, ∃ c, Coordinates.from_indices idx = some c) →
      ∃ cs, line_coordinates L = Except.ok cs ∧
        (∀ c, c ∈ cs ↔ ∃ idx ∈ L, Coordinates.from_indices idx = some c) := by
  intro L
  induction L with
  | nil => exact fun _ => ⟨[], rfl, by simp⟩
  | cons idx rest ih =>
    intro h
    obtain ⟨c0, hc0⟩ := h idx (List.mem_cons_self idx rest)
    obtain ⟨cs, hcs, hmem⟩ := ih (fun i hi => h i (List.mem_cons_of_mem idx hi))
    refine ⟨c0 :: cs, by simp only [line_coordinates, hc0, hcs], ?_⟩
    intro c
    constructor
    · intro hin
      rcases List.mem_cons.mp hin with h1 | h1
      · exact ⟨idx, List.mem_cons_self idx rest, by rw [h1]; exact hc0⟩
      · obtain ⟨i, hi, hfi⟩ := (hmem c).mp h1
        exact ⟨i, List.mem_cons_of_mem idx hi, hfi⟩
    · rintro ⟨i, hi, hfi⟩
      rcases List.mem_cons.mp hi with h1 | h1
      · refine List.mem_cons.mpr (Or.inl ?_)
        rw [h1, hc0] at hfi
        injection hfi with h2
        exact h2.symm
      · exact List.mem_cons.mpr (Or.inr ((hmem c).mpr ⟨i, h1, hfi⟩))

theorem mark_victory_tiles_spec :
    ∀ (cs : List Coordinates) (b : Board), (∀ c ∈ cs, ∃ t, b.get c = some t) →
      ∃ b', Game.mark_victory_tiles b cs = Except.ok b' ∧
        b'.keys = b.keys ∧
        (∀ c, b'.get c =
          if c ∈ cs then
            (b.get c).map (fun t => Tile.mk t.occupation_state TileDisplayState.Victory)
          else b.get c) := by
  intro cs
  induction cs with
  | nil =>
    intro b _
    refine ⟨b, rfl, rfl, ?_⟩
    intro c
    simp
  | cons c0 rest ih =>
    intro b h
    obtain ⟨t0, ht0⟩ := h c0 (List.mem_cons_self c0 rest)
    have hrest : ∀ c ∈ rest, ∃ t,
        (b.set_display c0 TileDisplayState.Victory).get c = some t := by
      intro c hc
      obtain ⟨t, ht⟩ := h c (List.mem_cons_of_mem c0 hc)
      rw [Board.get_set_display, ht]
      exact ⟨_, rfl⟩
    obtain ⟨b', hb', hkeys, hget⟩ := ih (b.set_display c0 TileDisplayState.Victory) hrest
    refine ⟨b', ?_, ?_, ?_⟩
    · simp only [Game.mark_victory_tiles, ht0]
      exact hb'
    · rw [hkeys, Board.keys_set_display]
    · intro c
      rw [hget c]
      by_cases hc0 : c = c0
      · subst hc0
        rw [if_pos (List.mem_cons_self c rest), Board.get_set_display]
        by_cases hcr : c ∈ rest
        · rw [if_pos hcr]
          cases b.get c <;> simp
        · rw [if_neg hcr]
          cases b.get c <;> simp
      · have hne : (b.set_display c0 TileDisplayState.Victory).get c = b.get c :=
          Board.get_set_display_ne b c0 c TileDisplayState.Victory hc0
        by_cases hcr : c ∈ rest
        · have hmem : c ∈ c0 :: rest := List.mem_cons_of_mem c0 hcr
          simp only [hcr, if_true, hmem, hne]
        · have hmem : c ∉ c0 :: rest := by
            intro hc
            rcases List.mem_cons.mp hc with h1 | h1
            · exact hc0 h1
            · exact hcr h1
          simp only [hcr, if_false, hmem, hne]

theorem find_first_winner_some (g : Game) :
    ∀ (sets : List (List Indices)) (p : Player) (L : List Indices),
      g.find_first_winner sets = Except.ok (some (p, L)) →
      ∃ pre post, sets = pre ++ L :: post ∧
        (∀ L' ∈ pre, g.single_player_occupying_indices L' = Except.ok none) ∧
        g.single_player_occupying_indices L = Except.ok (some p) := by
  intro sets
  induction sets with
  | nil => intro p L h; simp [Game.find_first_winner] at h
  | cons L0 rest ih =>
    intro p L h
    simp only [Game.find_first_winner] at h
    cases hs : g.single_player_occupying_indices L0 with
    | error e => rw [hs] at h; simp at h
    | ok r =>
      cases r with
      | some q =>
        rw [hs] at h
        simp only at h
        injection h with h2
        injection h2 with h3
        have hq : q = p := congrArg Prod.fst h3
        have hL : L0 = L := congrArg Prod.snd h3
        subst hq
        subst hL
        refine ⟨[], rest, rfl, ?_, hs⟩
        intro L' hL'
        cases hL'
      | none =>
        rw [hs] at h
        simp only at h
        obtain ⟨pre, post, hsets, hpre, hsingle⟩ := ih p L h
        refine ⟨L0 :: pre, post, by rw [hsets]; rfl, ?_, hsingle⟩
        intro L' hL'
        rcases List.mem_cons.mp hL' with h1 | h1
        · rw [h1]; exact hs
        · exact hpre L' h1

theorem update_outcome_victory (g : Game) (p : Player) (L : List Indices)
    (hfw : g.find_first_winner (possible_winning_indices_sets g.grid_dimensions) =
      Except.ok (some (p, L)))
    (hsingle : g.single_player_occupying_indices L = Except.ok (some p)) :
    ∃ cs, line_coordinates L = Except.ok cs ∧
      (∀ c, c ∈ cs ↔ ∃ idx ∈ L, Coordinates.from_indices idx = some c) ∧
      ∃ b', g.update_outcome = Except.ok { g with
          outcome := GameOutcome.Victory p,
          notification := some (Notification.mk (p.display ++ " wins!")
            NotificationType.Success),
          board := b' } ∧
        b'.keys = g.board.keys ∧
        (∀ c, b'.get c =
          if c ∈ cs then
            (g.board.get c).map (fun t => Tile.mk t.occupation_state TileDisplayState.Victory)
          else g.board.get c) := by
  have hlkp := single_ok_lookups g L (some p) hsingle
  obtain ⟨cs, hcs, hcsmem⟩ :=
    line_coordinates_total L (fun idx hidx => by
      obtain ⟨c, t, hc, _⟩ := hlkp idx hidx
      exact ⟨c, hc⟩)
  have hcsget : ∀ c ∈ cs, ∃ t, g.board.get c = some t := by
    intro c hc
    obtain ⟨idx, hidx, hfi⟩ := (hcsmem c).mp hc
    obtain ⟨c2, t, hc2, hg⟩ := hlkp idx hidx
    rw [hfi] at hc2
    injection hc2 with h2
    exact ⟨t, by rw [h2]; exact hg⟩
  obtain ⟨b', hb', hkeys, hget⟩ := mark_victory_tiles_spec cs g.board hcsget
  refine ⟨cs, hcs, hcsmem, b', ?_, hkeys, hget⟩
  unfold Game.update_outcome
  rw [hfw]
  simp only
  rw [hcs]
  simp only
  rw [hb']

theorem update_outcome_total (g : Game) (n : Nat) (hn : g.grid_dimensions = n)
    (h8 : n ≤ 8) (hwf : g.board.wf n) :
    ∃ g', g.update_outcome = Except.ok g' := by
  have hsingles : ∀ L ∈ possible_winning_indices_sets n,
      ∃ r, g.single_player_occupying_indices L = Except.ok r := by
    intro L hL
    have htot : ∀ idx ∈ L, ∃ t, g.lookup_indices_tile idx = Except.ok t := by
      intro idx hidx
      obtain ⟨hc, hr⟩ := mem_sets_bounds n L hL idx hidx
      obtain ⟨c, t, _, _, hlk⟩ := lookup_total_of_wf g n h8 hwf idx hc hr
      exact ⟨t, hlk⟩
    obtain ⟨ts, hts⟩ := lookup_line_tiles_total g L htot
    refine ⟨single_player_loop none ts, ?_⟩
    unfold Game.single_player_occupying_indices
    rw [hts]
  obtain ⟨res, hres⟩ := find_first_winner_total g (possible_winning_indices_sets n)
    hsingles
  rw [← hn] at hres
  cases res with
  | some pr =>
    obtain ⟨pre, post, hsets, hpre, hsingle⟩ :=
      find_first_winner_some g (possible_winning_indices_sets g.grid_dimensions)
        pr.1 pr.2 (by rw [hres])
    obtain ⟨cs, _, _, b', hupd, _⟩ := update_outcome_victory g pr.1 pr.2
      (by rw [hres]) hsingle
    exact ⟨_, hupd⟩
  | none =>
    unfold Game.update_outcome
    rw [hres]
    simp only
    by_cases hocc : g.board.all_occupied
    · rw [if_pos hocc]
      exact ⟨_, rfl⟩
    · rw [if_neg hocc]
      exact ⟨_, rfl⟩


/-! ### Characterizing update_board, handle_error, and the no-winner branches -/

theorem update_board_out_of_bounds (g : Game) (coords : Coordinates) (p : Player)
    (h : g.board.get coords = none) :
    g.update_board coords p = Except.error (MoveError.OutOfBounds coords) := by
  unfold Game.update_board
  rw [h]

theorem update_board_taken (g : Game) (coords : Coordinates) (p : Player)
    (t : Tile) (q : Player) (h : g.board.get coords = some t)
    (hocc : t.occupation_state = TileOccupationState.Occupied q) :
    g.update_board coords p = Except.error (MoveError.TileTaken coords q) := by
  unfold Game.update_board
  rw [h]
  simp only [hocc]

theorem update_board_success (g : Game) (coords : Coordinates) (p : Player)
    (t : Tile) (h : g.board.get coords = some t)
    (hocc : t.occupation_state = TileOccupationState.Empty) :
    g.update_board coords p = Except.ok { g with
      board := Board.mk (g.board.tiles.map (fun entry =>
        (entry.1,
          if entry.1 = coords then
            Tile.mk (TileOccupationState.Occupied p) TileDisplayState.NewlyCreated
          else
            Tile.mk entry.2.occupation_state TileDisplayState.Normal))) } := by
  unfold Game.update_board
  rw [h]
  simp only [hocc]

theorem update_board_ok_spec (g : Game) (coords : Coordinates) (p : Player)
    (g' : Game) (hub : g.update_board coords p = Except.ok g') :
    (∀ c, g'.board.get c = (g.board.get c).map (fun t =>
      if c = coords then
        Tile.mk (TileOccupationState.Occupied p) TileDisplayState.NewlyCreated
      else
        Tile.mk t.occupation_state TileDisplayState.Normal)) ∧
    g'.board.keys = g.board.keys ∧
    g'.players = g.players ∧ g'.notification = g.notification ∧
    g'.grid_dimensions = g.grid_dimensions ∧ g'.turn_number = g.turn_number ∧
    g'.outcome = g.outcome := by
  unfold Game.update_board at hub
  cases hg : g.board.get coords with
  | none => rw [hg] at hub; simp at hub
  | some t =>
    rw [hg] at hub
    cases hocc : t.occupation_state with
    | Occupied q => simp only [hocc] at hub; simp at hub
    | Empty =>
      simp only [hocc] at hub
      injection hub with h2
      subst h2
      refine ⟨?_, ?_, rfl, rfl, rfl, rfl, rfl⟩
      · intro c
        exact Board.find_entry_map g.board.tiles (fun k t2 =>
          if k = coords then
            Tile.mk (TileOccupationState.Occupied p) TileDisplayState.NewlyCreated
          else
            Tile.mk t2.occupation_state TileDisplayState.Normal) c
      · exact Board.keys_map_form g.board.tiles (fun k t2 =>
          if k = coords then
            Tile.mk (TileOccupationState.Occupied p) TileDisplayState.NewlyCreated
          else
            Tile.mk t2.occupation_state TileDisplayState.Normal)

theorem handle_error_spec (g : Game) (err : MoveError) (coords : Coordinates) :
    (handle_error g err (some coords)).turn_number = g.turn_number ∧
    (handle_error g err (some coords)).outcome = g.outcome ∧
    (handle_error g err (some coords)).players = g.players ∧
    (handle_error g err (some coords)).grid_dimensions = g.grid_dimensions ∧
    (handle_error g err (some coords)).notification =
      some (Notification.mk (move_error_message err) NotificationType.Error) ∧
    (handle_error g err (some coords)).board.keys = g.board.keys ∧
    (∀ c, c ≠ coords → (handle_error g err (some coords)).board.get c = g.board.get c) ∧
    (handle_error g err (some coords)).board.get coords =
      (g.board.get coords).map (fun t =>
        Tile.mk t.occupation_state TileDisplayState.Error) := by
  have he : handle_error g err (some coords) =
      (match g.board.get coords with
       | none =>
         { g with notification := some (Notification.mk (move_error_message err)
             NotificationType.Error) }
       | some _ =>
         { g with
           notification := some (Notification.mk (move_error_message err)
             NotificationType.Error),
           board := g.board.set_display coords TileDisplayState.Error }) := rfl
  rw [he]
  cases hg : g.board.get coords with
  | none =>
    refine ⟨rfl, rfl, rfl, rfl, rfl, rfl, fun c _ => rfl, ?_⟩
    show g.board.get coords =
      Option.map (fun (t : Tile) => Tile.mk t.occupation_state TileDisplayState.Error)
        none
    rw [hg]
    rfl
  | some t =>
    refine ⟨rfl, rfl, rfl, rfl, rfl, ?_, ?_, ?_⟩
    · show (g.board.set_display coords TileDisplayState.Error).keys = g.board.keys
      exact Board.keys_set_display g.board coords TileDisplayState.Error
    · intro c hc
      show (g.board.set_display coords TileDisplayState.Error).get c = g.board.get c
      exact Board.get_set_display_ne g.board coords c TileDisplayState.Error hc
    · show (g.board.set_display coords TileDisplayState.Error).get coords =
        Option.map (fun (t2 : Tile) =>
          Tile.mk t2.occupation_state TileDisplayState.Error) (some t)
      rw [Board.get_set_display, hg]
      simp

theorem get_current_turn_player_isSome (g : Game) (hp : g.players.length = 2) :
    ∃ pl, g.get_current_turn_player = some pl := by
  unfold Game.get_current_turn_player
  have hlt : (g.turn_number - 1) % 2 < g.players.length := by
    rw [hp]
    exact Nat.mod_lt _ (by omega)
  rw [List.getElem?_eq_getElem hlt]
  exact ⟨_, rfl⟩

theorem update_outcome_no_winner (g : Game)
    (hfw : g.find_first_winner (possible_winning_indices_sets g.grid_dimensions) =
      Except.ok none) :
    (g.board.all_occupied = true →
      g.update_outcome = Except.ok { g with
        outcome := GameOutcome.Draw,
        notification := some (Notification.mk "The game ends in a draw!"
          NotificationType.Info) }) ∧
    (g.board.all_occupied = false →
      g.update_outcome = Except.ok g.advance_turn) := by
  constructor
  · intro hocc
    unfold Game.update_outcome
    rw [hfw]
    simp only
    rw [if_pos hocc]
  · intro hocc
    unfold Game.update_outcome
    rw [hfw]
    simp only
    rw [if_neg (by rw [hocc]; simp)]


/-! ### Stepping one driver-loop attempt -/

theorem try_execute_turn_terminal (g : Game) (coords : Coordinates) (pl : Player)
    (hpl : g.get_current_turn_player = some pl)
    (hout : ¬ g.outcome = GameOutcome.InProgress) :
    try_execute_turn g coords = Except.ok ({ g with notification := none }, none) := by
  unfold try_execute_turn
  rw [hpl]
  simp only
  rw [if_neg hout]

theorem try_execute_turn_fail (g : Game) (coords : Coordinates) (pl : Player)
    (err : MoveError) (hpl : g.get_current_turn_player = some pl)
    (hout : g.outcome = GameOutcome.InProgress)
    (hub : ({ g with notification := none } : Game).update_board coords pl =
      Except.error err) :
    try_execute_turn g coords =
      Except.ok (handle_error { g with notification := none } err (some coords),
        some err) := by
  unfold try_execute_turn
  rw [hpl]
  simp only
  rw [if_pos hout, hub]

theorem try_execute_turn_success (g : Game) (coords : Coordinates) (pl : Player)
    (g2 g3 : Game) (hpl : g.get_current_turn_player = some pl)
    (hout : g.outcome = GameOutcome.InProgress)
    (hub : ({ g with notification := none } : Game).update_board coords pl =
      Except.ok g2)
    (huo : g2.update_outcome = Except.ok g3) :
    try_execute_turn g coords = Except.ok (g3, none) := by
  unfold try_execute_turn
  rw [hpl]
  simp only
  rw [if_pos hout, hub]
  simp only
  rw [huo]

/-! ### Construction -/

theorem init_tiles_entries_spec :
    ∀ (idxs : List Indices),
      (∀ idx ∈ idxs, ∃ c, Coordinates.from_indices idx = some c) →
      ∃ entries, init_tiles_entries idxs = some entries ∧
        entries.length = idxs.length ∧
        (∀ e ∈ entries, e.2 = Tile.mk TileOccupationState.Empty TileDisplayState.Normal) ∧
        (Board.mk entries).keys = idxs.filterMap Coordinates.from_indices := by
  intro idxs
  induction idxs with
  | nil => exact fun _ => ⟨[], rfl, rfl, by simp, rfl⟩
  | cons idx rest ih =>
    intro h
    obtain ⟨c, hc⟩ := h idx (List.mem_cons_self idx rest)
    obtain ⟨entries, he, hlen, hall, hkeys⟩ :=
      ih (fun i hi => h i (List.mem_cons_of_mem idx hi))
    refine ⟨(c, Tile.mk TileOccupationState.Empty TileDisplayState.Normal) :: entries,
      ?_, ?_, ?_, ?_⟩
    · simp only [init_tiles_entries, hc, he]
    · simp [hlen]
    · intro e he2
      rcases List.mem_cons.mp he2 with h1 | h1
      · rw [h1]
      · exact hall e h1
    · simp only [Board.keys, List.map_cons, List.filterMap_cons, hc]
      simp only [Board.keys] at hkeys
      rw [hkeys]

theorem all_grid_from_indices_total (n : Nat) (h8 : n ≤ 8) :
    ∀ idx ∈ all_grid_indices n, ∃ c, Coordinates.from_indices idx = some c := by
  intro idx hidx
  obtain ⟨hc, hr⟩ := (mem_all_grid_indices n idx).mp hidx
  obtain ⟨c, hfi, _⟩ := from_indices_in_bounds n idx h8 hc hr
  exact ⟨c, hfi⟩

theorem all_grid_indices_length (n : Nat) (h8 : n ≤ 8) :
    (all_grid_indices n).length = n * n := by
  interval_cases n <;> decide

theorem full_coordinate_space_nodup (n : Nat) (h8 : n ≤ 8) :
    (full_coordinate_space n).Nodup := by
  interval_cases n <;> decide

theorem full_coordinate_space_length (n : Nat) (h8 : n ≤ 8) :
    (full_coordinate_space n).length = n * n := by
  interval_cases n <;> decide

theorem game_new_spec (n : Nat) :
    (3 ≤ n ∧ n ≤ 8 → ∃ g, Game.new n = some g) ∧
    (Game.new n = none → n < 3 ∨ n > 8) ∧
    (∀ g, Game.new n = some g →
      g.players = [Player.mk 1 'X', Player.mk 2 'O'] ∧
      g.notification = none ∧ g.grid_dimensions = n ∧ g.turn_number = 1 ∧
      g.outcome = GameOutcome.InProgress ∧
      g.board.tiles.length = n * n ∧
      (∀ e ∈ g.board.tiles,
        e.2 = Tile.mk TileOccupationState.Empty TileDisplayState.Normal) ∧
      g.board.keys = full_coordinate_space n) := by
  unfold Game.new Game.MIN_NUM_ROWS_OR_COLUMNS Game.MAX_NUM_ROWS_OR_COLUMNS
  by_cases hrange : n < 3 ∨ n > 8
  · rw [if_pos hrange]
    refine ⟨?_, fun _ => hrange, ?_⟩
    · intro hr
      omega
    · intro g hg
      simp at hg
  · rw [if_neg hrange]
    have h8 : n ≤ 8 := by omega
    obtain ⟨entries, he, hlen, hall, hkeys⟩ :=
      init_tiles_entries_spec (all_grid_indices n) (all_grid_from_indices_total n h8)
    rw [he]
    simp only
    refine ⟨fun _ => ⟨_, rfl⟩, ?_, ?_⟩
    · intro hc
      simp at hc
    · intro g hg
      injection hg with h2
      subst h2
      refine ⟨rfl, rfl, rfl, rfl, rfl, ?_, hall, hkeys⟩
      show entries.length = n * n
      rw [hlen, all_grid_indices_length n h8]

theorem game_new_wf (n : Nat) (g : Game) (h : Game.new n = some g) :
    3 ≤ n ∧ n ≤ 8 ∧ g.board.wf n := by
  have hrange : ¬(n < 3 ∨ n > 8) := by
    intro hc
    unfold Game.new Game.MIN_NUM_ROWS_OR_COLUMNS Game.MAX_NUM_ROWS_OR_COLUMNS at h
    rw [if_pos hc] at h
    simp at h
  have h3 : 3 ≤ n := by omega
  have h8 : n ≤ 8 := by omega
  obtain ⟨-, -, hprops⟩ := game_new_spec n
  obtain ⟨-, -, -, -, -, -, -, hkeys⟩ := hprops g h
  refine ⟨h3, h8, ?_, ?_, ?_⟩
  · rw [hkeys]
    exact full_coordinate_space_nodup n h8
  · intro c hc
    rw [hkeys] at hc
    exact (mem_full_coordinate_space n h8 c).mp hc
  · intro c hc
    rw [hkeys]
    exact hc

theorem wf_tiles_length (b : Board) (n : Nat) (hwf : b.wf n) (h8 : n ≤ 8) :
    b.tiles.length = n * n := by
  have hperm : b.keys.Perm (full_coordinate_space n) := by
    rw [List.perm_ext_iff_of_nodup hwf.1 (full_coordinate_space_nodup n h8)]
    intro c
    constructor
    · intro hc
      exact (mem_full_coordinate_space n h8 c).mpr (hwf.2.1 c hc)
    · exact hwf.2.2 c
  have hlen := hperm.length_eq
  rw [full_coordinate_space_length n h8] at hlen
  have hkl : b.keys.length = b.tiles.length := by
    unfold Board.keys
    rw [List.length_map]
  rw [← hkl]
  exact hlen


/-! ### Coordinate parsing -/

theorem alpha_not_space_punct (c : Char) (h : is_ascii_alpha c = true) :
    is_space_or_punct c = false := by
  unfold is_ascii_alpha at h
  unfold is_space_or_punct is_regex_space is_ascii_punct
  simp only [decide_eq_true_eq] at h
  simp only [Bool.or_eq_false_iff, decide_eq_false_iff_not]
  omega

theorem digit_not_space_punct (c : Char) (h : is_ascii_digit c = true) :
    is_space_or_punct c = false := by
  unfold is_ascii_digit at h
  unfold is_space_or_punct is_regex_space is_ascii_punct
  simp only [decide_eq_true_eq] at h
  simp only [Bool.or_eq_false_iff, decide_eq_false_iff_not]
  omega

theorem space_punct_not_digit (c : Char) (h : is_space_or_punct c = true) :
    is_ascii_digit c = false := by
  unfold is_space_or_punct is_regex_space is_ascii_punct at h
  unfold is_ascii_digit
  simp only [Bool.or_eq_true, decide_eq_true_eq] at h
  simp only [decide_eq_false_iff_not]
  omega

theorem dropWhile_append_all {p : Char → Bool} :
    ∀ (xs ys : List Char), (∀ c ∈ xs, p c = true) →
      (xs ++ ys).dropWhile p = ys.dropWhile p := by
  intro xs ys
  induction xs with
  | nil => intro _; rfl
  | cons x xs' ih =>
    intro h
    have hx := h x (List.mem_cons_self x xs')
    simp only [List.cons_append, List.dropWhile_cons, hx, if_true]
    exact ih (fun c hc => h c (List.mem_cons_of_mem x hc))

theorem dropWhile_cons_false {p : Char → Bool} (x : Char) (xs : List Char)
    (h : p x = false) : (x :: xs).dropWhile p = x :: xs := by
  simp [List.dropWhile_cons, h]

theorem takeWhile_append_stop {p : Char → Bool} :
    ∀ (xs ys : List Char), (∀ c ∈ xs, p c = true) →
      (∀ y ∈ ys.take 1, p y = false) → (xs ++ ys).takeWhile p = xs := by
  intro xs ys
  induction xs with
  | nil =>
    intro _ hy
    cases ys with
    | nil => rfl
    | cons y ys' =>
      have := hy y (by simp)
      simp [List.takeWhile_cons, this]
  | cons x xs' ih =>
    intro h hy
    have hx := h x (List.mem_cons_self x xs')
    simp only [List.cons_append, List.takeWhile_cons, hx, if_true, List.cons.injEq,
      true_and]
    exact ih (fun c hc => h c (List.mem_cons_of_mem x hc)) hy

theorem dropWhile_append_stop {p : Char → Bool} :
    ∀ (xs ys : List Char), (∀ c ∈ xs, p c = true) →
      (∀ y ∈ ys.take 1, p y = false) → (xs ++ ys).dropWhile p = ys := by
  intro xs ys hxs hy
  rw [dropWhile_append_all xs ys hxs]
  cases ys with
  | nil => rfl
  | cons y ys' =>
    have := hy y (by simp)
    simp [List.dropWhile_cons, this]

/-- The pattern accepted by the parsing regex, stated as a plain decomposition
of the input: optional whitespace-or-punctuation, one alphabetic character,
optional whitespace-or-punctuation, one or more digits (not split), optional
whitespace-or-punctuation. -/
def matches_coord_pattern (s : String) (a : Char) (ds : List Char) : Prop :=
  ∃ w1 w2 w3, s.toList = w1 ++ a :: (w2 ++ (ds ++ w3)) ∧
    (∀ c ∈ w1, is_space_or_punct c = true) ∧
    is_ascii_alpha a = true ∧
    (∀ c ∈ w2, is_space_or_punct c = true) ∧
    ds ≠ [] ∧ (∀ c ∈ ds, is_ascii_digit c = true) ∧
    (∀ c ∈ w3, is_space_or_punct c = true)

theorem extract_coord_parts_iff (s : String) (a : Char) (ds : List Char) :
    extract_coord_parts s = some (a, ds) ↔ matches_coord_pattern s a ds := by
  constructor
  · intro h
    unfold extract_coord_parts at h
    cases hdrop : s.toList.dropWhile is_space_or_punct with
    | nil => rw [hdrop] at h; simp at h
    | cons c rest =>
      rw [hdrop] at h
      simp only at h
      by_cases halpha : is_ascii_alpha c = true
      · rw [if_pos halpha] at h
        by_cases hde : ((rest.dropWhile is_space_or_punct).takeWhile
            is_ascii_digit).isEmpty = true
        · rw [if_pos hde] at h
          simp at h
        · rw [if_neg hde] at h
          by_cases htl : (((rest.dropWhile is_space_or_punct).dropWhile
              is_ascii_digit).dropWhile is_space_or_punct).isEmpty = true
          · rw [if_pos htl] at h
            injection h with h2
            have ha : c = a := congrArg Prod.fst h2
            have hds : (rest.dropWhile is_space_or_punct).takeWhile is_ascii_digit
                = ds := congrArg Prod.snd h2
            refine ⟨s.toList.takeWhile is_space_or_punct,
              rest.takeWhile is_space_or_punct,
              (rest.dropWhile is_space_or_punct).dropWhile is_ascii_digit,
              ?_, ?_, ?_, ?_, ?_, ?_, ?_⟩
            · rw [← hds]
              conv =>
                lhs
                rw [← List.takeWhile_append_dropWhile (p := is_space_or_punct)
                  (l := s.toList)]
              rw [hdrop]
              congr 1
              rw [ha]
              congr 1
              conv =>
                lhs
                rw [← List.takeWhile_append_dropWhile (p := is_space_or_punct)
                  (l := rest)]
              congr 1
              exact (List.takeWhile_append_dropWhile
                (p := is_ascii_digit) (l := rest.dropWhile is_space_or_punct)).symm
            · intro x hx
              exact List.mem_takeWhile_imp hx
            · rw [← ha]
              exact halpha
            · intro x hx
              exact List.mem_takeWhile_imp hx
            · rw [← hds]
              intro hnil
              rw [hnil] at hde
              simp at hde
            · rw [← hds]
              intro x hx
              exact List.mem_takeWhile_imp hx
            · intro x hx
              rw [List.isEmpty_iff, List.dropWhile_eq_nil_iff] at htl
              exact htl x hx
          · rw [if_neg htl] at h
            simp at h
      · rw [if_neg halpha] at h
        simp at h
  · rintro ⟨w1, w2, w3, hsplit, hw1, halpha, hw2, hne, hds, hw3⟩
    obtain ⟨d, ds', hdcons⟩ : ∃ d ds', ds = d :: ds' := by
      cases ds with
      | nil => exact absurd rfl hne
      | cons d ds' => exact ⟨d, ds', rfl⟩
    have hanotsp : is_space_or_punct a = false := alpha_not_space_punct a halpha
    have hdnotsp : is_space_or_punct d = false :=
      digit_not_space_punct d (hds d (by rw [hdcons]; exact List.mem_cons_self d ds'))
    unfold extract_coord_parts
    rw [hsplit, dropWhile_append_all w1 _ hw1, dropWhile_cons_false a _ hanotsp]
    simp only
    rw [if_pos halpha]
    have hafter : (w2 ++ (ds ++ w3)).dropWhile is_space_or_punct = ds ++ w3 := by
      rw [dropWhile_append_all w2 _ hw2, hdcons]
      exact dropWhile_cons_false d _ hdnotsp
    rw [hafter]
    have hw3head : ∀ y ∈ w3.take 1, is_ascii_digit y = false := by
      intro y hy
      exact space_punct_not_digit y (hw3 y (List.mem_of_mem_take hy))
    rw [takeWhile_append_stop ds w3 hds hw3head]
    rw [dropWhile_append_stop ds w3 hds hw3head]
    rw [if_neg (by rw [hdcons]; simp)]
    rw [if_pos (by rw [List.isEmpty_iff, List.dropWhile_eq_nil_iff]; exact hw3)]

theorem from_user_input_ok_iff (s : String) :
    (∃ c, Coordinates.from_user_input s = Except.ok c) ↔
      ∃ a ds, matches_coord_pattern s a ds ∧ nat_of_digits ds ≤ USIZE_MAX := by
  unfold Coordinates.from_user_input
  cases he : extract_coord_parts s with
  | none =>
    constructor
    · rintro ⟨c, hc⟩
      simp at hc
    · rintro ⟨a, ds, hm, _⟩
      have h2 := (extract_coord_parts_iff s a ds).mpr hm
      rw [he] at h2
      simp at h2
  | some pair =>
    obtain ⟨a, ds⟩ := pair
    constructor
    · rintro ⟨c, hc⟩
      simp only at hc
      by_cases hb : nat_of_digits ds ≤ USIZE_MAX
      · exact ⟨a, ds, (extract_coord_parts_iff s a ds).mp he, hb⟩
      · rw [if_neg hb] at hc
        simp at hc
    · rintro ⟨a', ds', hm, hb⟩
      have h2 := (extract_coord_parts_iff s a' ds').mpr hm
      rw [he] at h2
      injection h2 with h3
      have ha : a = a' := congrArg Prod.fst h3
      have hd : ds = ds' := congrArg Prod.snd h3
      subst ha
      subst hd
      simp only
      rw [if_pos hb]
      exact ⟨_, rfl⟩


/-! ### Concrete sample games -/

/-- Player 1 as constructed by `Game::new`. -/
def player1 : Player := Player.mk 1 'X'

/-- Player 2 as constructed by `Game::new`. -/
def player2 : Player := Player.mk 2 'O'

/-- An empty tile in its initial display state. -/
def empty_tile : Tile := Tile.mk TileOccupationState.Empty TileDisplayState.Normal

/-- A tile occupied by player 1, display state `Normal`. -/
def x_tile : Tile := Tile.mk (TileOccupationState.Occupied player1) TileDisplayState.Normal

/-- A tile occupied by player 2, display state `Normal`. -/
def o_tile : Tile := Tile.mk (TileOccupationState.Occupied player2) TileDisplayState.Normal

/-- A 3×3 game in which player 1 occupies the whole first row. -/
def game_x_top_row : Game :=
  Game.mk [player1, player2]
    (Board.mk [(Coordinates.mk 'A' 1, x_tile), (Coordinates.mk 'B' 1, x_tile),
      (Coordinates.mk 'C' 1, x_tile), (Coordinates.mk 'A' 2, empty_tile),
      (Coordinates.mk 'B' 2, empty_tile), (Coordinates.mk 'C' 2, empty_tile),
      (Coordinates.mk 'A' 3, empty_tile), (Coordinates.mk 'B' 3, empty_tile),
      (Coordinates.mk 'C' 3, empty_tile)])
    none 3 6 GameOutcome.InProgress

/-- A 3×3 game in which player 1 owns row 1 and player 2 owns row 2. -/
def game_two_rows : Game :=
  Game.mk [player1, player2]
    (Board.mk [(Coordinates.mk 'A' 1, x_tile), (Coordinates.mk 'B' 1, x_tile),
      (Coordinates.mk 'C' 1, x_tile), (Coordinates.mk 'A' 2, o_tile),
      (Coordinates.mk 'B' 2, o_tile), (Coordinates.mk 'C' 2, o_tile),
      (Coordinates.mk 'A' 3, empty_tile), (Coordinates.mk 'B' 3, empty_tile),
      (Coordinates.mk 'C' 3, empty_tile)])
    none 3 7 GameOutcome.InProgress

/-- A freshly constructed 3×3 game (the literal value of `Game.new 3`). -/
def game_fresh3 : Game :=
  Game.mk [player1, player2]
    (Board.mk [(Coordinates.mk 'A' 1, empty_tile), (Coordinates.mk 'B' 1, empty_tile),
      (Coordinates.mk 'C' 1, empty_tile), (Coordinates.mk 'A' 2, empty_tile),
      (Coordinates.mk 'B' 2, empty_tile), (Coordinates.mk 'C' 2, empty_tile),
      (Coordinates.mk 'A' 3, empty_tile), (Coordinates.mk 'B' 3, empty_tile),
      (Coordinates.mk 'C' 3, empty_tile)])
    none 3 1 GameOutcome.InProgress

/-- A fully occupied 3×3 board in which no line is owned by a single player:
X O X / X O O / O X X. -/
def game_full_draw : Game :=
  Game.mk [player1, player2]
    (Board.mk [(Coordinates.mk 'A' 1, x_tile), (Coordinates.mk 'B' 1, o_tile),
      (Coordinates.mk 'C' 1, x_tile), (Coordinates.mk 'A' 2, x_tile),
      (Coordinates.mk 'B' 2, o_tile), (Coordinates.mk 'C' 2, o_tile),
      (Coordinates.mk 'A' 3, o_tile), (Coordinates.mk 'B' 3, x_tile),
      (Coordinates.mk 'C' 3, x_tile)])
    none 3 9 GameOutcome.InProgress

/-- The same finished board with outcome already `Draw` (a terminal game). -/
def game_after_draw : Game :=
  { game_full_draw with outcome := GameOutcome.Draw }

/-! ### First fully-owned candidate line decides the outcome -/

theorem first_owned_line_outcome (g : Game) (n : Nat) (p : Player)
    (L : List Indices) (pre post : List (List Indices))
    (hn : g.grid_dimensions = n) (h8 : n ≤ 8) (hwf : g.board.wf n)
    (hsets : possible_winning_indices_sets n = pre ++ L :: post)
    (hpre : ∀ L' ∈ pre, ∀ q, ¬ line_owned_by g L' q)
    (howned : line_owned_by g L p) :
    ∃ cs, line_coordinates L = Except.ok cs ∧
      (∀ c, c ∈ cs ↔ ∃ idx ∈ L, Coordinates.from_indices idx = some c) ∧
      ∃ g', g.update_outcome = Except.ok g' ∧
        g'.outcome = GameOutcome.Victory p ∧
        g'.turn_number = g.turn_number ∧
        g'.board.keys = g.board.keys ∧
        (∀ c, g'.board.get c =
          if c ∈ cs then
            (g.board.get c).map (fun t =>
              Tile.mk t.occupation_state TileDisplayState.Victory)
          else g.board.get c) := by
  have hsingleL : g.single_player_occupying_indices L = Except.ok (some p) :=
    (single_player_eq_some_iff g L p).mpr howned
  have hprenone : ∀ L' ∈ pre, g.single_player_occupying_indices L' =
      Except.ok none := by
    intro L' hL'
    have hLmem : L' ∈ possible_winning_indices_sets n := by
      rw [hsets]
      exact List.mem_append.mpr (Or.inl hL')
    have htot : ∀ idx ∈ L', ∃ t, g.lookup_indices_tile idx = Except.ok t := by
      intro idx hidx
      obtain ⟨hc, hr⟩ := mem_sets_bounds n L' hLmem idx hidx
      obtain ⟨c, t, _, _, hlk⟩ := lookup_total_of_wf g n h8 hwf idx hc hr
      exact ⟨t, hlk⟩
    obtain ⟨ts, hts⟩ := lookup_line_tiles_total g L' htot
    have hsing : g.single_player_occupying_indices L' =
        Except.ok (single_player_loop none ts) := by
      unfold Game.single_player_occupying_indices
      rw [hts]
    cases hloop : single_player_loop none ts with
    | none => rw [hloop] at hsing; exact hsing
    | some q =>
      exfalso
      rw [hloop] at hsing
      exact hpre L' hL' q ((single_player_eq_some_iff g L' q).mp hsing)
  have hfw : g.find_first_winner
      (possible_winning_indices_sets g.grid_dimensions) =
      Except.ok (some (p, L)) := by
    rw [hn, hsets, find_first_winner_skip g pre (L :: post) hprenone]
    exact find_first_winner_cons_some g p L post hsingleL
  obtain ⟨cs, hcs, hcsmem, b', hupd, hkeys, hget⟩ :=
    update_outcome_victory g p L hfw hsingleL
  exact ⟨cs, hcs, hcsmem, _, hupd, rfl, rfl, hkeys, hget⟩


/-! ### Positions of the candidate lines in the enumeration -/

theorem sets_getElem_row (n i : Nat) (hi : i < n) :
    (possible_winning_indices_sets n)[i]? = some (row_line n i) := by
  unfold possible_winning_indices_sets
  have h1 : i < ((List.range n).map (row_line n)).length := by simp [hi]
  have h2 : i < (((List.range n).map (row_line n)) ++
      ((List.range n).map (column_line n))).length := by
    simp
    omega
  rw [List.getElem?_append, if_pos h2, List.getElem?_append, if_pos h1,
    List.getElem?_map, List.getElem?_range hi]
  rfl

theorem sets_getElem_col (n i : Nat) (hi : i < n) :
    (possible_winning_indices_sets n)[n + i]? = some (column_line n i) := by
  unfold possible_winning_indices_sets
  have hlenA : ((List.range n).map (row_line n)).length = n := by simp
  have hlenAB : (((List.range n).map (row_line n)) ++
      ((List.range n).map (column_line n))).length = n + n := by simp
  rw [List.getElem?_append, if_pos (by rw [hlenAB]; omega),
    List.getElem?_append, if_neg (by rw [hlenA]; omega), hlenA]
  have hsub : n + i - n = i := by omega
  rw [hsub, List.getElem?_map, List.getElem?_range hi]
  rfl

theorem sets_getElem_diag (n : Nat) :
    (possible_winning_indices_sets n)[2 * n]? = some (upper_left_diagonal n) ∧
    (possible_winning_indices_sets n)[2 * n + 1]? = some (lower_left_diagonal n) := by
  unfold possible_winning_indices_sets
  have hlenAB : (((List.range n).map (row_line n)) ++
      ((List.range n).map (column_line n))).length = n + n := by simp
  constructor
  · rw [List.getElem?_append, if_neg (by rw [hlenAB]; omega), hlenAB]
    have hsub : 2 * n - (n + n) = 0 := by omega
    rw [hsub]
    rfl
  · rw [List.getElem?_append, if_neg (by rw [hlenAB]; omega), hlenAB]
    have hsub : 2 * n + 1 - (n + n) = 1 := by omega
    rw [hsub]
    rfl

theorem row_line_getElem (n i j : Nat) (hj : j < n) :
    (row_line n i)[j]? = some (Indices.mk j i) := by
  unfold row_line
  rw [List.getElem?_map, List.getElem?_range hj]
  rfl

theorem column_line_getElem (n i j : Nat) (hj : j < n) :
    (column_line n i)[j]? = some (Indices.mk i j) := by
  unfold column_line
  rw [List.getElem?_map, List.getElem?_range hj]
  rfl

theorem diagonal_getElem (n j : Nat) (hj : j < n) :
    (upper_left_diagonal n)[j]? = some (Indices.mk j j) ∧
    (lower_left_diagonal n)[j]? = some (Indices.mk j (n - 1 - j)) := by
  unfold upper_left_diagonal lower_left_diagonal
  rw [List.getElem?_map, List.getElem?_range hj, List.getElem?_map,
    List.getElem?_range hj]
  exact ⟨rfl, rfl⟩

/-! ### Claim theorems -/

/-- C1 (amended): if a candidate line `L` is fully occupied by player `p` and
no earlier line in the evaluation order is fully occupied by a single player,
then outcome evaluation sets the outcome to `Victory p` and marks every tile
of `L` with the winning display annotation. -/
theorem C1_winning_line_amended (g : Game) (n : Nat) (p : Player)
    (L : List Indices) (pre post : List (List Indices))
    (hn : g.grid_dimensions = n) (h8 : n ≤ 8) (hwf : g.board.wf n)
    (hsets : possible_winning_indices_sets n = pre ++ L :: post)
    (hpre : ∀ L' ∈ pre, ∀ q, ¬ line_owned_by g L' q)
    (howned : line_owned_by g L p) :
    ∃ g', g.update_outcome = Except.ok g' ∧
      g'.outcome = GameOutcome.Victory p ∧
      ∀ idx ∈ L, ∃ c t, Coordinates.from_indices idx = some c ∧
        g'.board.get c = some t ∧
        t.display_state = TileDisplayState.Victory ∧
        t.occupation_state = TileOccupationState.Occupied p := by
  obtain ⟨cs, hcs, hcsmem, g', hupd, hout, hturn, hkeys, hget⟩ :=
    first_owned_line_outcome g n p L pre post hn h8 hwf hsets hpre howned
  refine ⟨g', hupd, hout, ?_⟩
  intro idx hidx
  have hocc := howned.2 idx hidx
  cases hlk : g.lookup_indices_tile idx with
  | error e => rw [hlk] at hocc; simp [Except.map] at hocc
  | ok t =>
    rw [hlk] at hocc
    have htocc : t.occupation_state = TileOccupationState.Occupied p := by
      have h2 : Except.ok (ε := Unit) t.occupation_state =
          Except.ok (TileOccupationState.Occupied p) := hocc
      injection h2
    obtain ⟨c, hfi, hbg⟩ := lookup_indices_tile_ok g idx t hlk
    have hccs : c ∈ cs := (hcsmem c).mpr ⟨idx, hidx, hfi⟩
    refine ⟨c, Tile.mk t.occupation_state TileDisplayState.Victory, hfi, ?_, rfl,
      htocc⟩
    rw [hget c, if_pos hccs, hbg]
    rfl

/-- Witness for C1: on a 3×3 board whose first row is fully occupied by
player 1, outcome evaluation declares `Victory player1` and marks that row. -/
theorem C1_witness :
    line_owned_by game_x_top_row (row_line 3 0) player1 ∧
    ∃ g', game_x_top_row.update_outcome = Except.ok g' ∧
      g'.outcome = GameOutcome.Victory player1 ∧
      ∀ idx ∈ row_line 3 0, ∃ c t, Coordinates.from_indices idx = some c ∧
        g'.board.get c = some t ∧
        t.display_state = TileDisplayState.Victory ∧
        t.occupation_state = TileOccupationState.Occupied player1 := by
  refine ⟨by decide, ?_⟩
  exact C1_winning_line_amended game_x_top_row 3 player1 (row_line 3 0) []
    ((possible_winning_indices_sets 3).tail) rfl (by decide) (by decide)
    (by decide) (fun L' hL' => absurd hL' (List.not_mem_nil L')) (by decide)

/-- Counterexample for C1 as literally stated: on a board where player 1 owns
row 1 and player 2 owns row 2, row 2 is a fully-owned line for player 2, yet
the evaluated outcome is `Victory player1` (not `Victory player2`) and the
row-2 tile A2 keeps display state `Normal` rather than the winning one. -/
theorem C1_counterexample :
    line_owned_by game_two_rows (row_line 3 1) player2 ∧
    row_line 3 1 ∈ possible_winning_indices_sets 3 ∧
    (game_two_rows.update_outcome).map Game.outcome =
      Except.ok (GameOutcome.Victory player1) ∧
    GameOutcome.Victory player1 ≠ GameOutcome.Victory player2 ∧
    (game_two_rows.update_outcome).map
      (fun g' => g'.board.get (Coordinates.mk 'A' 2)) =
      Except.ok (some (Tile.mk (TileOccupationState.Occupied player2)
        TileDisplayState.Normal)) := by
  decide

/-- C6: the outcome evaluation enumerates exactly `2·n + 2` candidate lines in
the fixed order rows ascending, columns ascending, main diagonal,
anti-diagonal; the first fully-owned line in that order decides the outcome
and only that line's coordinates receive the winning annotation. -/
theorem C6_line_order (n : Nat) :
    (possible_winning_indices_sets n).length = 2 * n + 2 ∧
    (∀ i, i < n → (possible_winning_indices_sets n)[i]? = some (row_line n i)) ∧
    (∀ i, i < n →
      (possible_winning_indices_sets n)[n + i]? = some (column_line n i)) ∧
    (possible_winning_indices_sets n)[2 * n]? = some (upper_left_diagonal n) ∧
    (possible_winning_indices_sets n)[2 * n + 1]? = some (lower_left_diagonal n) ∧
    (∀ i j, i < n → j < n →
      (row_line n i)[j]? = some (Indices.mk j i) ∧
      (column_line n i)[j]? = some (Indices.mk i j)) ∧
    (∀ j, j < n →
      (upper_left_diagonal n)[j]? = some (Indices.mk j j) ∧
      (lower_left_diagonal n)[j]? = some (Indices.mk j (n - 1 - j))) ∧
    (∀ (g : Game) (p : Player) (L : List Indices)
      (pre post : List (List Indices)),
      g.grid_dimensions = n → n ≤ 8 → g.board.wf n →
      possible_winning_indices_sets n = pre ++ L :: post →
      (∀ L' ∈ pre, ∀ q, ¬ line_owned_by g L' q) →
      line_owned_by g L p →
      ∃ g', g.update_outcome = Except.ok g' ∧
        g'.outcome = GameOutcome.Victory p ∧
        (∀ c, (¬ ∃ idx ∈ L, Coordinates.from_indices idx = some c) →
          g'.board.get c = g.board.get c)) := by
  refine ⟨?_, fun i hi => sets_getElem_row n i hi,
    fun i hi => sets_getElem_col n i hi, (sets_getElem_diag n).1,
    (sets_getElem_diag n).2,
    fun i j hi hj => ⟨row_line_getElem n i j hj, column_line_getElem n i j hj⟩,
    fun j hj => diagonal_getElem n j hj, ?_⟩
  · unfold possible_winning_indices_sets
    simp
    omega
  · intro g p L pre post hn h8 hwf hsets hpre howned
    obtain ⟨cs, hcs, hcsmem, g', hupd, hout, hturn, hkeys, hget⟩ :=
      first_owned_line_outcome g n p L pre post hn h8 hwf hsets hpre howned
    refine ⟨g', hupd, hout, ?_⟩
    intro c hc
    have hnc : c ∉ cs := fun hmem => hc ((hcsmem c).mp hmem)
    rw [hget c, if_neg hnc]

/-- Witness for C6: the 3×3 enumeration has 8 lines in the stated order, and
on the first-row board the non-winning tile B2 is left untouched. -/
theorem C6_witness :
    (possible_winning_indices_sets 3).length = 2 * 3 + 2 ∧
    (possible_winning_indices_sets 3)[0]? = some (row_line 3 0) ∧
    (possible_winning_indices_sets 3)[3 + 0]? = some (column_line 3 0) ∧
    (possible_winning_indices_sets 3)[2 * 3]? = some (upper_left_diagonal 3) ∧
    ∃ g', game_x_top_row.update_outcome = Except.ok g' ∧
      g'.outcome = GameOutcome.Victory player1 ∧
      (∀ c, (¬ ∃ idx ∈ row_line 3 0, Coordinates.from_indices idx = some c) →
        g'.board.get c = game_x_top_row.board.get c) := by
  obtain ⟨hlen, hrow, hcol, hd1, hd2, hrc, hdiag, hbehavior⟩ := C6_line_order 3
  refine ⟨hlen, hrow 0 (by decide), hcol 0 (by decide), hd1, ?_⟩
  exact hbehavior game_x_top_row player1 (row_line 3 0) []
    ((possible_winning_indices_sets 3).tail) rfl (by decide) (by decide)
    (by decide) (fun L' hL' => absurd hL' (List.not_mem_nil L')) (by decide)


theorem mark_victory_tiles_keys :
    ∀ (cs : List Coordinates) (b b' : Board),
      Game.mark_victory_tiles b cs = Except.ok b' → b'.keys = b.keys := by
  intro cs
  induction cs with
  | nil =>
    intro b b' h
    injection h with h2
    rw [h2]
  | cons c0 rest ih =>
    intro b b' h
    unfold Game.mark_victory_tiles at h
    cases hg : b.get c0 with
    | none => rw [hg] at h; simp at h
    | some t =>
      rw [hg] at h
      simp only at h
      have := ih (b.set_display c0 TileDisplayState.Victory) b' h
      rw [this, Board.keys_set_display]

theorem update_outcome_cases (g g' : Game) (h : g.update_outcome = Except.ok g') :
    (∃ p cs b', g'.outcome = GameOutcome.Victory p ∧
      g'.turn_number = g.turn_number ∧ g'.board = b' ∧
      Game.mark_victory_tiles g.board cs = Except.ok b') ∨
    (g.find_first_winner (possible_winning_indices_sets g.grid_dimensions) =
        Except.ok none ∧
      g.board.all_occupied = true ∧
      g' = { g with
        outcome := GameOutcome.Draw,
        notification := some (Notification.mk "The game ends in a draw!"
          NotificationType.Info) }) ∨
    (g.find_first_winner (possible_winning_indices_sets g.grid_dimensions) =
        Except.ok none ∧
      g.board.all_occupied = false ∧ g' = g.advance_turn) := by
  unfold Game.update_outcome at h
  cases hfw : g.find_first_winner (possible_winning_indices_sets g.grid_dimensions) with
  | error e => rw [hfw] at h; simp at h
  | ok r =>
    rw [hfw] at h
    cases r with
    | some pr =>
      obtain ⟨p, L⟩ := pr
      simp only at h
      cases hlc : line_coordinates L with
      | error e => rw [hlc] at h; simp at h
      | ok cs =>
        rw [hlc] at h
        simp only at h
        cases hmv : Game.mark_victory_tiles g.board cs with
        | error e => rw [hmv] at h; simp at h
        | ok b' =>
          rw [hmv] at h
          simp only at h
          injection h with h2
          subst h2
          exact Or.inl ⟨p, cs, b', rfl, rfl, rfl, hmv⟩
    | none =>
      simp only at h
      by_cases hocc : g.board.all_occupied = true
      · rw [if_pos hocc] at h
        injection h with h2
        subst h2
        exact Or.inr (Or.inl ⟨rfl, hocc, rfl⟩)
      · rw [if_neg hocc] at h
        injection h with h2
        subst h2
        exact Or.inr (Or.inr ⟨rfl, Bool.eq_false_iff.mpr hocc, rfl⟩)

theorem no_owned_find_first_none (g : Game) (n : Nat)
    (hn : g.grid_dimensions = n) (h8 : n ≤ 8) (hwf : g.board.wf n)
    (hnowin : ∀ L ∈ possible_winning_indices_sets n, ∀ p, ¬ line_owned_by g L p) :
    g.find_first_winner (possible_winning_indices_sets g.grid_dimensions) =
      Except.ok none := by
  have hall : ∀ L ∈ possible_winning_indices_sets n,
      g.single_player_occupying_indices L = Except.ok none := by
    intro L hL
    have htot : ∀ idx ∈ L, ∃ t, g.lookup_indices_tile idx = Except.ok t := by
      intro idx hidx
      obtain ⟨hc, hr⟩ := mem_sets_bounds n L hL idx hidx
      obtain ⟨c, t, _, _, hlk⟩ := lookup_total_of_wf g n h8 hwf idx hc hr
      exact ⟨t, hlk⟩
    obtain ⟨ts, hts⟩ := lookup_line_tiles_total g L htot
    have hsing : g.single_player_occupying_indices L =
        Except.ok (single_player_loop none ts) := by
      unfold Game.single_player_occupying_indices
      rw [hts]
    cases hloop : single_player_loop none ts with
    | none => rw [hloop] at hsing; exact hsing
    | some q =>
      exfalso
      rw [hloop] at hsing
      exact hnowin L hL q ((single_player_eq_some_iff g L q).mp hsing)
  rw [hn]
  have := find_first_winner_skip g (possible_winning_indices_sets n) [] hall
  rw [List.append_nil] at this
  rw [this]
  rfl

/-- C2: after outcome evaluation with no fully-owned candidate line, a fully
occupied board yields `Draw` (turn unchanged), a board with an empty tile
leaves the outcome `InProgress` and advances the turn counter by exactly one,
and the turn counter moves in no other case. -/
theorem C2_draw_advance_turn (g : Game) (n : Nat)
    (hn : g.grid_dimensions = n) (h8 : n ≤ 8) (hwf : g.board.wf n)
    (hout : g.outcome = GameOutcome.InProgress) :
    ((∀ L ∈ possible_winning_indices_sets n, ∀ p, ¬ line_owned_by g L p) →
      ((∀ e ∈ g.board.tiles,
          e.2.occupation_state ≠ TileOccupationState.Empty) →
        g.update_outcome = Except.ok { g with
          outcome := GameOutcome.Draw,
          notification := some (Notification.mk "The game ends in a draw!"
            NotificationType.Info) }) ∧
      ((∃ e ∈ g.board.tiles,
          e.2.occupation_state = TileOccupationState.Empty) →
        g.update_outcome = Except.ok g.advance_turn ∧
        g.advance_turn.outcome = GameOutcome.InProgress ∧
        g.advance_turn.turn_number = g.turn_number + 1)) ∧
    (∀ g', g.update_outcome = Except.ok g' →
      g'.turn_number ≠ g.turn_number →
      g'.outcome = GameOutcome.InProgress ∧
      g'.turn_number = g.turn_number + 1 ∧
      (∃ e ∈ g.board.tiles, e.2.occupation_state = TileOccupationState.Empty) ∧
      (∀ L ∈ possible_winning_indices_sets n, ∀ p, ¬ line_owned_by g L p)) := by
  constructor
  · intro hnowin
    have hfw := no_owned_find_first_none g n hn h8 hwf hnowin
    obtain ⟨hdraw, hadv⟩ := update_outcome_no_winner g hfw
    constructor
    · intro hfull
      exact hdraw ((Board.all_occupied_iff g.board).mpr hfull)
    · intro hsomee
      have hnotfull : g.board.all_occupied = false := by
        cases hb : g.board.all_occupied
        · rfl
        · exfalso
          obtain ⟨e, he, hocc⟩ := hsomee
          exact absurd hocc ((Board.all_occupied_iff g.board).mp hb e he)
      refine ⟨hadv hnotfull, ?_, rfl⟩
      show g.outcome = GameOutcome.InProgress
      exact hout
  · intro g' hupd hturn
    rcases update_outcome_cases g g' hupd with
      ⟨p, cs, b', _, hturn2, _, _⟩ | ⟨_, _, hg'⟩ | ⟨hfw, hnotfull, hg'⟩
    · exact absurd hturn2 hturn
    · rw [hg'] at hturn
      exact absurd rfl hturn
    · have hnowin : ∀ L ∈ possible_winning_indices_sets n, ∀ p,
          ¬ line_owned_by g L p := by
        intro L hL p howned
        have hsing := (single_player_eq_some_iff g L p).mpr howned
        have := find_first_winner_none g
          (possible_winning_indices_sets g.grid_dimensions) hfw L
          (by rw [hn]; exact hL)
        rw [hsing] at this
        simp at this
      have hsomee : ∃ e ∈ g.board.tiles,
          e.2.occupation_state = TileOccupationState.Empty := by
        by_contra hc
        push_neg at hc
        have hfull : ∀ e ∈ g.board.tiles,
            e.2.occupation_state ≠ TileOccupationState.Empty := hc
        rw [(Board.all_occupied_iff g.board).mpr hfull] at hnotfull
        cases hnotfull
      rw [hg']
      exact ⟨hout, rfl, hsomee, hnowin⟩

/-- Witness for C2: the full no-line draw board evaluates to `Draw` with the
turn counter untouched, and the empty fresh board advances the turn to 2. -/
theorem C2_witness :
    (game_full_draw.update_outcome = Except.ok { game_full_draw with
      outcome := GameOutcome.Draw,
      notification := some (Notification.mk "The game ends in a draw!"
        NotificationType.Info) }) ∧
    (game_fresh3.update_outcome = Except.ok game_fresh3.advance_turn ∧
      game_fresh3.advance_turn.outcome = GameOutcome.InProgress ∧
      game_fresh3.advance_turn.turn_number = game_fresh3.turn_number + 1) := by
  have hall1 : ∀ L ∈ possible_winning_indices_sets 3,
      game_full_draw.single_player_occupying_indices L = Except.ok none := by
    decide
  have hall2 : ∀ L ∈ possible_winning_indices_sets 3,
      game_fresh3.single_player_occupying_indices L = Except.ok none := by
    decide
  have hnowin1 : ∀ L ∈ possible_winning_indices_sets 3, ∀ p,
      ¬ line_owned_by game_full_draw L p := by
    intro L hL p howned
    have hsing := (single_player_eq_some_iff game_full_draw L p).mpr howned
    rw [hall1 L hL] at hsing
    simp at hsing
  have hnowin2 : ∀ L ∈ possible_winning_indices_sets 3, ∀ p,
      ¬ line_owned_by game_fresh3 L p := by
    intro L hL p howned
    have hsing := (single_player_eq_some_iff game_fresh3 L p).mpr howned
    rw [hall2 L hL] at hsing
    simp at hsing
  constructor
  · exact ((C2_draw_advance_turn game_full_draw 3 rfl (by decide) (by decide)
      rfl).1 hnowin1).1 (by decide)
  · exact ((C2_draw_advance_turn game_fresh3 3 rfl (by decide) (by decide)
      rfl).1 hnowin2).2 (by decide)


theorem handle_error_board_none (g : Game) (err : MoveError) (coords : Coordinates)
    (h : g.board.get coords = none) :
    (handle_error g err (some coords)).board = g.board := by
  have he : handle_error g err (some coords) =
      (match g.board.get coords with
       | none =>
         { g with notification := some (Notification.mk (move_error_message err)
             NotificationType.Error) }
       | some _ =>
         { g with
           notification := some (Notification.mk (move_error_message err)
             NotificationType.Error),
           board := g.board.set_display coords TileDisplayState.Error }) := rfl
  rw [he, h]

/-- C3: a move attempt that fails (out-of-bounds coordinate or occupied tile)
leaves the turn counter, every tile's occupation, and the outcome unchanged;
the only board change is the display-only error annotation on the offending
tile, and the returned error names the occupying player in the taken case. -/
theorem C3_failed_move (g : Game) (coords : Coordinates)
    (hp : g.players.length = 2)
    (hout : g.outcome = GameOutcome.InProgress)
    (hfail : g.board.get coords = none ∨
      ∃ t q, g.board.get coords = some t ∧
        t.occupation_state = TileOccupationState.Occupied q) :
    ∃ g' e, try_execute_turn g coords = Except.ok (g', some e) ∧
      g'.turn_number = g.turn_number ∧
      g'.outcome = g.outcome ∧
      (∀ c, (g'.board.get c).map Tile.occupation_state =
        (g.board.get c).map Tile.occupation_state) ∧
      (∀ c, c ≠ coords → g'.board.get c = g.board.get c) ∧
      (g.board.get coords = none →
        e = MoveError.OutOfBounds coords ∧ g'.board = g.board) ∧
      (∀ t q, g.board.get coords = some t →
        t.occupation_state = TileOccupationState.Occupied q →
        e = MoveError.TileTaken coords q) := by
  obtain ⟨pl, hpl⟩ := get_current_turn_player_isSome g hp
  have hb1 : ({ g with notification := none } : Game).board = g.board := rfl
  rcases hfail with hnone | ⟨t, q, hsome, htq⟩
  · have hub : ({ g with notification := none } : Game).update_board coords pl =
        Except.error (MoveError.OutOfBounds coords) :=
      update_board_out_of_bounds { g with notification := none } coords pl hnone
    have htet := try_execute_turn_fail g coords pl (MoveError.OutOfBounds coords)
      hpl hout hub
    obtain ⟨hturn, hout2, hpl2, hgrid2, hnotif2, hkeys2, hne2, hat2⟩ :=
      handle_error_spec { g with notification := none }
        (MoveError.OutOfBounds coords) coords
    refine ⟨_, _, htet, hturn, hout2, ?_, ?_, fun _ => ⟨rfl, ?_⟩, ?_⟩
    · intro c
      by_cases hc : c = coords
      · subst hc
        rw [hat2]
        show Option.map Tile.occupation_state ((g.board.get c).map
          (fun t2 => Tile.mk t2.occupation_state TileDisplayState.Error)) =
          Option.map Tile.occupation_state (g.board.get c)
        cases g.board.get c <;> rfl
      · rw [hne2 c hc]
    · intro c hc
      exact hne2 c hc
    · exact handle_error_board_none { g with notification := none }
        (MoveError.OutOfBounds coords) coords hnone
    · intro t2 q2 hsome2 _
      rw [hnone] at hsome2
      cases hsome2
  · have hub : ({ g with notification := none } : Game).update_board coords pl =
        Except.error (MoveError.TileTaken coords q) :=
      update_board_taken { g with notification := none } coords pl t q hsome htq
    have htet := try_execute_turn_fail g coords pl (MoveError.TileTaken coords q)
      hpl hout hub
    obtain ⟨hturn, hout2, hpl2, hgrid2, hnotif2, hkeys2, hne2, hat2⟩ :=
      handle_error_spec { g with notification := none }
        (MoveError.TileTaken coords q) coords
    refine ⟨_, _, htet, hturn, hout2, ?_, ?_, ?_, ?_⟩
    · intro c
      by_cases hc : c = coords
      · subst hc
        rw [hat2]
        show Option.map Tile.occupation_state ((g.board.get c).map
          (fun t2 => Tile.mk t2.occupation_state TileDisplayState.Error)) =
          Option.map Tile.occupation_state (g.board.get c)
        cases g.board.get c <;> rfl
      · rw [hne2 c hc]
    · intro c hc
      exact hne2 c hc
    · intro hnone2
      rw [hnone2] at hsome
      cases hsome
    · intro t2 q2 hsome2 htq2
      rw [hsome] at hsome2
      injection hsome2 with ht2
      rw [← ht2] at htq2
      rw [htq] at htq2
      injection htq2 with hq2
      rw [hq2]

/-- Witness for C3: attempting to place on the occupied tile A1 of the
first-row board fails with `TileTaken` naming player 1; attempting the
out-of-bounds coordinate D9 fails with `OutOfBounds`; both leave turn,
outcome, and every tile's occupation unchanged. -/
theorem C3_witness :
    (∃ g' e, try_execute_turn game_x_top_row (Coordinates.mk 'A' 1) =
        Except.ok (g', some e) ∧
      g'.turn_number = game_x_top_row.turn_number ∧
      g'.outcome = game_x_top_row.outcome ∧
      e = MoveError.TileTaken (Coordinates.mk 'A' 1) player1) ∧
    (∃ g' e, try_execute_turn game_x_top_row (Coordinates.mk 'D' 9) =
        Except.ok (g', some e) ∧
      e = MoveError.OutOfBounds (Coordinates.mk 'D' 9) ∧
      g'.board = game_x_top_row.board) := by
  constructor
  · obtain ⟨g', e, htet, hturn, hout, _, _, _, htaken⟩ :=
      C3_failed_move game_x_top_row (Coordinates.mk 'A' 1) (by decide) rfl
        (Or.inr ⟨x_tile, player1, by decide, by decide⟩)
    exact ⟨g', e, htet, hturn, hout, htaken x_tile player1 (by decide) (by decide)⟩
  · obtain ⟨g', e, htet, _, _, _, _, hoob, _⟩ :=
      C3_failed_move game_x_top_row (Coordinates.mk 'D' 9) (by decide) rfl
        (Or.inl (by decide))
    obtain ⟨he, hb⟩ := hoob (by decide)
    exact ⟨g', e, htet, he, hb⟩

/-- C4: once the outcome is `Draw` or `Victory`, a turn attempt applies no
move: the board, turn counter, and outcome are all left unchanged and no
move error is produced (the driver merely re-renders). -/
theorem C4_terminal_rejects (g : Game) (coords : Coordinates)
    (hp : g.players.length = 2)
    (hterm : g.outcome = GameOutcome.Draw ∨
      ∃ p, g.outcome = GameOutcome.Victory p) :
    ∃ g', try_execute_turn g coords = Except.ok (g', none) ∧
      g'.board = g.board ∧
      g'.turn_number = g.turn_number ∧
      g'.outcome = g.outcome := by
  obtain ⟨pl, hpl⟩ := get_current_turn_player_isSome g hp
  have hne : ¬ g.outcome = GameOutcome.InProgress := by
    rcases hterm with h | ⟨p, h⟩ <;> rw [h] <;> simp
  exact ⟨_, try_execute_turn_terminal g coords pl hpl hne, rfl, rfl, rfl⟩

/-- Witness for C4: on the finished draw board no move is applied and the
state survives untouched. -/
theorem C4_witness :
    ∃ g', try_execute_turn game_after_draw (Coordinates.mk 'A' 1) =
        Except.ok (g', none) ∧
      g'.board = game_after_draw.board ∧
      g'.turn_number = game_after_draw.turn_number ∧
      g'.outcome = game_after_draw.outcome :=
  C4_terminal_rejects game_after_draw (Coordinates.mk 'A' 1) (by decide)
    (Or.inl (by decide))


/-- C5: construction succeeds exactly for dimensions in `[3, 8]`, producing a
game with `n²` tiles, all empty, the two fixed players, turn 1, and outcome
`InProgress`. -/
theorem C5_construction (n : Nat) :
    ((∃ g, Game.new n = some g) ↔ (3 ≤ n ∧ n ≤ 8)) ∧
    (∀ g, Game.new n = some g →
      g.board.tiles.length = n ^ 2 ∧
      (∀ e ∈ g.board.tiles, e.2.occupation_state = TileOccupationState.Empty) ∧
      g.players = [Player.mk 1 'X', Player.mk 2 'O'] ∧
      g.turn_number = 1 ∧
      g.outcome = GameOutcome.InProgress) := by
  obtain ⟨hexists, hnone, hprops⟩ := game_new_spec n
  constructor
  · constructor
    · rintro ⟨g, hg⟩
      have h38 := game_new_wf n g hg
      exact ⟨h38.1, h38.2.1⟩
    · exact hexists
  · intro g hg
    obtain ⟨hp, hnotif, hgrid, hturn, hout, hlen, hall, hkeys⟩ := hprops g hg
    refine ⟨?_, ?_, hp, hturn, hout⟩
    · rw [pow_two]
      exact hlen
    · intro e he
      rw [hall e he]

/-- Witness for C5: dimension 3 is accepted with a 9-tile empty board; 9 is
rejected. -/
theorem C5_witness :
    (∃ g, Game.new 3 = some g) ∧
    (¬ ∃ g, Game.new 9 = some g) ∧
    (∀ g, Game.new 3 = some g →
      g.board.tiles.length = 3 ^ 2 ∧ g.turn_number = 1) := by
  refine ⟨(C5_construction 3).1.mpr (by decide), ?_, ?_⟩
  · intro hex
    have h := (C5_construction 9).1.mp hex
    omega
  · intro g hg
    obtain ⟨hlen, -, -, hturn, -⟩ := (C5_construction 3).2 g hg
    exact ⟨hlen, hturn⟩

theorem update_outcome_keys (g g' : Game) (h : g.update_outcome = Except.ok g') :
    g'.board.keys = g.board.keys := by
  rcases update_outcome_cases g g' h with
    ⟨p, cs, b', _, _, hb, hmv⟩ | ⟨_, _, hg'⟩ | ⟨_, _, hg'⟩
  · rw [hb]
    exact mark_victory_tiles_keys cs g.board b' hmv
  · rw [hg']
  · rw [hg']
    rfl

/-- C7: every operation preserves the board key-set invariant — construction
establishes it, successful moves, failed-move handling, and outcome
evaluation keep the key set untouched, and under the invariant the tile
count is `n²` with every stored coordinate in bounds. -/
theorem C7_key_set_invariant :
    (∀ n g, Game.new n = some g →
      g.board.wf n ∧ g.board.tiles.length = n ^ 2) ∧
    (∀ (g : Game) (n : Nat) (coords : Coordinates) (p : Player) (g' : Game),
      g.board.wf n → g.update_board coords p = Except.ok g' → g'.board.wf n) ∧
    (∀ (g : Game) (n : Nat) (err : MoveError) (mc : Option Coordinates),
      g.board.wf n → (handle_error g err mc).board.wf n) ∧
    (∀ (g : Game) (n : Nat) (g' : Game),
      g.board.wf n → g.update_outcome = Except.ok g' → g'.board.wf n) ∧
    (∀ (b : Board) (n : Nat), b.wf n → n ≤ 8 →
      b.tiles.length = n ^ 2 ∧ (∀ c ∈ b.keys, in_bounds_coord n c)) := by
  refine ⟨?_, ?_, ?_, ?_, ?_⟩
  · intro n g hg
    obtain ⟨h3, h8, hwf⟩ := game_new_wf n g hg
    refine ⟨hwf, ?_⟩
    rw [pow_two]
    exact wf_tiles_length g.board n hwf h8
  · intro g n coords p g' hwf hub
    exact wf_of_keys_eq g.board g'.board n (update_board_ok_spec g coords p g' hub).2.1
      hwf
  · intro g n err mc hwf
    cases mc with
    | none => exact hwf
    | some coords =>
      exact wf_of_keys_eq g.board (handle_error g err (some coords)).board n
        (handle_error_spec g err coords).2.2.2.2.2.1 hwf
  · intro g n g' hwf hupd
    exact wf_of_keys_eq g.board g'.board n (update_outcome_keys g g' hupd) hwf
  · intro b n hwf h8
    refine ⟨?_, hwf.2.1⟩
    rw [pow_two]
    exact wf_tiles_length b n hwf h8

/-- Witness for C7: the invariant holds for the freshly built 3×3 game and is
preserved by a successful move on it. -/
theorem C7_witness :
    Game.new 3 = some game_fresh3 ∧
    game_fresh3.board.wf 3 ∧
    game_fresh3.board.tiles.length = 3 ^ 2 ∧
    (∀ g', game_fresh3.update_board (Coordinates.mk 'B' 2) player1 =
      Except.ok g' → g'.board.wf 3) := by
  have hnew : Game.new 3 = some game_fresh3 := by decide
  refine ⟨hnew, (C7_key_set_invariant.1 3 game_fresh3 hnew).1,
    (C7_key_set_invariant.1 3 game_fresh3 hnew).2, ?_⟩
  intro g' h
  exact C7_key_set_invariant.2.1 game_fresh3 3 (Coordinates.mk 'B' 2) player1 g'
    (C7_key_set_invariant.1 3 game_fresh3 hnew).1 h

/-- C8: a successful placement occupies exactly the target tile (marked
newly-placed), leaves every other tile's occupation untouched, resets every
other tile's display annotation to normal, and changes no other game field. -/
theorem C8_place_frame (g : Game) (coords : Coordinates) (p : Player) (t : Tile)
    (hget : g.board.get coords = some t)
    (hocc : t.occupation_state = TileOccupationState.Empty) :
    ∃ g', g.update_board coords p = Except.ok g' ∧
      g'.board.get coords = some (Tile.mk (TileOccupationState.Occupied p)
        TileDisplayState.NewlyCreated) ∧
      (∀ c, c ≠ coords → (g'.board.get c).map Tile.occupation_state =
        (g.board.get c).map Tile.occupation_state) ∧
      (∀ c, c ≠ coords → g'.board.get c = (g.board.get c).map
        (fun t2 => Tile.mk t2.occupation_state TileDisplayState.Normal)) ∧
      g'.turn_number = g.turn_number ∧
      g'.outcome = g.outcome ∧
      g'.players = g.players ∧
      g'.grid_dimensions = g.grid_dimensions := by
  have hub := update_board_success g coords p t hget hocc
  obtain ⟨hgets, hkeys, hpl2, hnotif2, hgrid2, hturn2, hout2⟩ :=
    update_board_ok_spec g coords p _ hub
  refine ⟨_, hub, ?_, ?_, ?_, hturn2, hout2, hpl2, hgrid2⟩
  · rw [hgets coords, hget]
    simp
  · intro c hc
    rw [hgets c]
    cases g.board.get c <;> simp [hc]
  · intro c hc
    rw [hgets c]
    cases g.board.get c <;> simp [hc]

/-- Witness for C8: placing player 1 on the empty tile B2 of the fresh board
occupies exactly that tile and leaves all other occupations unchanged. -/
theorem C8_witness :
    ∃ g', game_fresh3.update_board (Coordinates.mk 'B' 2) player1 =
        Except.ok g' ∧
      g'.board.get (Coordinates.mk 'B' 2) = some (Tile.mk
        (TileOccupationState.Occupied player1) TileDisplayState.NewlyCreated) ∧
      (∀ c, c ≠ Coordinates.mk 'B' 2 →
        (g'.board.get c).map Tile.occupation_state =
        (game_fresh3.board.get c).map Tile.occupation_state) ∧
      g'.turn_number = game_fresh3.turn_number := by
  obtain ⟨g', hub, hat, hoccs, hdisp, hturn, hout, hpl, hgrid⟩ :=
    C8_place_frame game_fresh3 (Coordinates.mk 'B' 2) player1 empty_tile
      (by decide) (by decide)
  exact ⟨g', hub, hat, hoccs, hturn⟩

/-- C9 (amended): `" a 1 "` parses to column `'A'`, row 1; `"12"` and `"AB"`
fail with a parse error carrying the trimmed input; and in general an input
parses successfully iff it is one alphabetic character then one or more
digits whose decimal value fits in `usize`, with whitespace and punctuation
allowed before, between, and after (but not splitting the digits). -/
theorem C9_parsing_amended :
    Coordinates.from_user_input " a 1 " =
      Except.ok (Coordinates.mk 'A' 1) ∧
    Coordinates.from_user_input "12" =
      Except.error (ParseError.NoMatch "12") ∧
    Coordinates.from_user_input "AB" =
      Except.error (ParseError.NoMatch "AB") ∧
    (∀ s : String, (∃ c, Coordinates.from_user_input s = Except.ok c) ↔
      ∃ a ds, matches_coord_pattern s a ds ∧ nat_of_digits ds ≤ USIZE_MAX) :=
  ⟨by decide, by decide, by decide, from_user_input_ok_iff⟩

/-- Counterexample for C9 as literally stated: the input
`"A18446744073709551616"` (one letter followed by the digits of `2⁶⁴`)
matches the letter-then-digits pattern, yet parsing fails, because
`usize::from_str` overflows — so "parses iff pattern matches" is false. -/
theorem C9_counterexample :
    Coordinates.from_user_input "A18446744073709551616" =
      Except.error ParseError.IntOverflow ∧
    matches_coord_pattern "A18446744073709551616" 'A'
      ['1', '8', '4', '4', '6', '7', '4', '4', '0', '7', '3', '7', '0', '9',
        '5', '5', '1', '6', '1', '6'] := by
  constructor
  · decide
  · exact ⟨[], [], [], by decide, by decide, by decide, by decide, by decide,
      by decide, by decide⟩

theorem single_total_of_wf (g : Game) (n : Nat) (h8 : n ≤ 8)
    (hwf : g.board.wf n) (L : List Indices)
    (hL : L ∈ possible_winning_indices_sets n) :
    ∃ r, g.single_player_occupying_indices L = Except.ok r := by
  have htot : ∀ idx ∈ L, ∃ t, g.lookup_indices_tile idx = Except.ok t := by
    intro idx hidx
    obtain ⟨hc, hr⟩ := mem_sets_bounds n L hL idx hidx
    obtain ⟨c, t, _, _, hlk⟩ := lookup_total_of_wf g n h8 hwf idx hc hr
    exact ⟨t, hlk⟩
  obtain ⟨ts, hts⟩ := lookup_line_tiles_total g L htot
  refine ⟨single_player_loop none ts, ?_⟩
  unfold Game.single_player_occupying_indices
  rw [hts]

/-- C10: under the board invariant, every lookup the outcome evaluation
treats as infallible is total — index-to-coordinate conversion and the tile
lookup succeed for every index of every candidate line, the per-line test
returns a value for every line, and outcome evaluation never hits the
embedded panic. -/
theorem C10_lookups_total (g : Game) (n : Nat)
    (hn : g.grid_dimensions = n) (h8 : n ≤ 8) (hwf : g.board.wf n) :
    (∀ L ∈ possible_winning_indices_sets n, ∀ idx ∈ L,
      ∃ c t, Coordinates.from_indices idx = some c ∧ g.board.get c = some t ∧
        g.lookup_indices_tile idx = Except.ok t) ∧
    (∀ L ∈ possible_winning_indices_sets n,
      ∃ r, g.single_player_occupying_indices L = Except.ok r) ∧
    (∃ g', g.update_outcome = Except.ok g') := by
  refine ⟨?_, ?_, update_outcome_total g n hn h8 hwf⟩
  · intro L hL idx hidx
    obtain ⟨hc, hr⟩ := mem_sets_bounds n L hL idx hidx
    exact lookup_total_of_wf g n h8 hwf idx hc hr
  · intro L hL
    exact single_total_of_wf g n h8 hwf L hL

/-- Witness for C10: on the fresh 3×3 board every candidate-line test
returns a value and outcome evaluation completes. -/
theorem C10_witness :
    (∀ L ∈ possible_winning_indices_sets 3,
      ∃ r, game_fresh3.single_player_occupying_indices L = Except.ok r) ∧
    ∃ g', game_fresh3.update_outcome = Except.ok g' := by
  obtain ⟨-, hsingles, hupd⟩ :=
    C10_lookups_total game_fresh3 3 rfl (by decide) (by decide)
  exact ⟨hsingles, hupd⟩


/-- Witness for C9: the amended general characterization applied to the
concrete inputs `"B2"` and `"A\u00A01"` -- the latter separates the letter
and the digit with U+00A0 NO-BREAK SPACE, which is in the Unicode
White_Space class of `\s` and is therefore accepted. -/
theorem C9_witness :
    (∃ c, Coordinates.from_user_input "B2" = Except.ok c) ∧
    (∃ c, Coordinates.from_user_input "A\u00A01" = Except.ok c) := by
  constructor
  · have h := C9_parsing_amended.2.2.2 "B2"
    exact h.mpr ⟨'B', ['2'],
      ⟨[], [], [], by decide, by decide, by decide, by decide, by decide,
        by decide, by decide⟩, by decide⟩
  · have h := C9_parsing_amended.2.2.2 "A\u00A01"
    exact h.mpr ⟨'A', ['1'],
      ⟨[], ['\u00A0'], [], by decide, by decide, by decide, by decide,
        by decide, by decide, by decide⟩, by decide⟩

end TicTacToe
